import Mathlib

/-!
# Todo store and rule engine: a shallow embedding

The Go packages `models`, `dto`, `repository`, `service` and `helpers` are
rendered as Lean namespaces of the same names.  The repository object is a value of
`repository.TodoRepository`; a method that writes takes the store and
returns the new store next to its Go result.  The read/write lock is not
part of the state: every method body runs under the lock, so a method is
one atomic step.

Go's `int` is rendered as `Int`.  The only arithmetic on it is `nextID++`.
`repository.Create` increments the counter as a mathematical integer and
`repository.CreateInt64` increments it as the machine does on a 64-bit
platform, where the largest `int` wraps to the smallest; the two agree while
the counter is below `2^63 - 1` (`CreateInt64_eq_Create`), which is the case
along every run from `NewTodoRepository` of fewer than `2^63 - 2` calls
(`run_counter_in_range`).
Statements about runs from `NewTodoRepository` use `Create`; statements about
an arbitrary store use `CreateInt64`.
`time.Time` is rendered as a clock reading in `Nat`, and every call of
`time.Now()` is an explicit argument `now` of the method that makes it.
-/

set_option autoImplicit false

namespace models

/-- An instant as read from the clock (`time.Time`). -/
abbrev Time := Nat

/-- Go struct `models.Todo` (internal/models/todo.go). -/
structure Todo where
  ID : Int
  Text : String
  Completed : Bool
  UserID : Int
  CreatedBy : String
  CreatedAt : Time
  UpdatedAt : Time
deriving DecidableEq, Repr

/-- Modelled from the spec: the declaration of `models.User` is not among the
source files.  The fields are those of the spec's data model (identity,
display name, email, created-at) under the names `SeedUsers` gives them. -/
structure User where
  ID : Int
  Name : String
  Email : String
  CreatedAt : Time
deriving DecidableEq, Repr

end models

namespace dto

/-- Go struct `dto.CreateTodoRequest`. -/
structure CreateTodoRequest where
  Text : String
  UserID : Int
  Completed : Bool
deriving DecidableEq, Repr

end dto

/-- Go `error` values of the two packages.  The package-level sentinels are
compared by identity in the callers and are one constructor each;
`errors.New(msg)` evaluated inside a function body is `adhoc msg`. -/
inductive Err where
  /-- The sentinel `repository.ErrTodoNotFound`, "todo not found". -/
  | ErrTodoNotFound
  /-- The sentinel `service.ErrInvalidTodoText`, "todo text cannot be empty". -/
  | ErrInvalidTodoText
  /-- The sentinel `service.ErrInvalidUserID`, "invalid user ID". -/
  | ErrInvalidUserID
  /-- The sentinel `service.ErrUserNotFound`, "user_id not found". -/
  | ErrUserNotFound
  /-- The sentinel `service.ErrUnauthorized`. -/
  | ErrUnauthorized
  /-- An error made by `errors.New` at the place it is returned. -/
  | adhoc (msg : String)
deriving DecidableEq, Repr

deriving instance DecidableEq for Except

namespace strings

/-- Go `unicode.IsSpace`: the Unicode White_Space property. -/
def isSpace (c : Char) : Bool :=
  let n := c.toNat
  (0x09 ≤ n && n ≤ 0x0d) || n == 0x20 || n == 0x85 || n == 0xA0 || n == 0x1680 ||
    (0x2000 ≤ n && n ≤ 0x200a) || n == 0x2028 || n == 0x2029 || n == 0x202f ||
    n == 0x205f || n == 0x3000

/-- Leading white space removed. -/
def trimLeft (l : List Char) : List Char := l.dropWhile isSpace

/-- Trailing white space removed. -/
def trimRight (l : List Char) : List Char := (l.reverse.dropWhile isSpace).reverse

/-- Go `strings.TrimSpace`: the string without its leading and trailing white
space, on strings that are valid UTF-8. -/
def TrimSpace (s : String) : String := ⟨trimRight (trimLeft s.data)⟩

/-- The characters `sub` stand at the start of `s`. -/
def startsWithChars : List Char → List Char → Bool
  | _, [] => true
  | [], _ :: _ => false
  | c :: s, d :: sub => c == d && startsWithChars s sub

/-- The characters `sub` stand somewhere in `s`, one after the other. -/
def containsChars : List Char → List Char → Bool
  | [], sub => startsWithChars [] sub
  | c :: s, sub => startsWithChars (c :: s) sub || containsChars s sub

/-- Go `strings.Contains`: `substr` is within `s`, on strings that are valid
UTF-8. -/
def Contains (s substr : String) : Bool := containsChars s.data substr.data

end strings

namespace repository

open models

/-- Go struct `TodoRepository` without its lock.  The map `users` is an
association list from key to user, looked up by the first entry of a key. -/
structure TodoRepository where
  todos : List Todo
  users : List (Int × User)
  nextID : Int
deriving DecidableEq, Repr

/-- `SeedUsers` (internal/repository/user_seeder.go); `now` is its `time.Now()`. -/
def SeedUsers (now : Time) : List (Int × User) :=
  [ (1, { ID := 1, Name := "John Doe", Email := "john@example.com", CreatedAt := now }),
    (2, { ID := 2, Name := "Jane Smith", Email := "jane@example.com", CreatedAt := now }),
    (3, { ID := 3, Name := "Bob Johnson", Email := "bob@example.com", CreatedAt := now }) ]

/-- `NewTodoRepository`. -/
def NewTodoRepository (now : Time) : TodoRepository :=
  { todos := [], users := SeedUsers now, nextID := 1 }

/-- `FindAll`: a copy of the collection. -/
def FindAll (r : TodoRepository) : List Todo := r.todos

/-- The loop of `FindByID`: the first todo of the given identity. -/
def findLoop : List Todo → Int → Except Err Todo
  | [], _ => .error Err.ErrTodoNotFound
  | todo :: rest, id => if todo.ID = id then .ok todo else findLoop rest id

/-- `FindByID`. -/
def FindByID (r : TodoRepository) (id : Int) : Except Err Todo :=
  findLoop r.todos id

/-- `FindByUserID`: the loop appends every todo of the user to `userTodos`. -/
def FindByUserID (r : TodoRepository) (userID : Int) : List Todo :=
  r.todos.foldl (fun userTodos todo =>
    if todo.UserID = userID then userTodos ++ [todo] else userTodos) []

/-- `Create`: the todo gets the counter as its identity, the counter is
incremented and the todo is appended.  The counter is incremented as a
mathematical integer: this is the method as long as the counter is below the
largest `int`, see `CreateInt64`. -/
def Create (r : TodoRepository) (todo : Todo) : TodoRepository × Except Err Todo :=
  let todo := { todo with ID := r.nextID }
  ({ r with nextID := r.nextID + 1, todos := r.todos ++ [todo] }, .ok todo)

/-- The value of Go's `int` on a 64-bit platform that an arithmetic result
wraps to. -/
def wrapInt64 (x : Int) : Int := (x + 2 ^ 63) % 2 ^ 64 - 2 ^ 63

/-- `Create` with the machine arithmetic of `r.nextID++` on a 64-bit platform:
the todo gets the counter as its identity, the counter is incremented with
wrap-around and the todo is appended. -/
def CreateInt64 (r : TodoRepository) (todo : Todo) : TodoRepository × Except Err Todo :=
  let todo := { todo with ID := r.nextID }
  ({ r with nextID := wrapInt64 (r.nextID + 1), todos := r.todos ++ [todo] }, .ok todo)

/-- The loop header shared by `Update` and `Delete`: the first index whose
todo has the given identity. -/
def indexOfID : List Todo → Int → Option Nat
  | [], _ => none
  | t :: rest, id => if t.ID = id then some 0 else (indexOfID rest id).map (· + 1)

/-- `Update`: `r.todos[i] = *todo` at the first index of the todo's identity. -/
def Update (r : TodoRepository) (todo : Todo) : TodoRepository × Except Err Todo :=
  match indexOfID r.todos todo.ID with
  | some i => ({ r with todos := r.todos.set i todo }, .ok todo)
  | none => (r, .error Err.ErrTodoNotFound)

/-- `Delete`: `append(r.todos[:i], r.todos[i+1:]...)` at the first index of
the identity; the result is the error, `none` for `nil`. -/
def Delete (r : TodoRepository) (id : Int) : TodoRepository × Option Err :=
  match indexOfID r.todos id with
  | some i => ({ r with todos := r.todos.take i ++ r.todos.drop (i + 1) }, none)
  | none => (r, some Err.ErrTodoNotFound)

/-- `GetUserByID`: the map lookup `r.users[userID]`. -/
def GetUserByID (r : TodoRepository) (userID : Int) : Except Err User :=
  match r.users.lookup userID with
  | some user => .ok user
  | none => .error (Err.adhoc "user not found")

/-- `GetAllUsers`: the loop appends the user of every entry that `range`
visits.  Go leaves the order of a map iteration open; `order` is the sequence
of entries in the order this call visits them. -/
def GetAllUsers (_r : TodoRepository) (order : List (Int × User)) : List User :=
  order.foldl (fun users entry => users ++ [entry.2]) []

/-- The sequence `order` is an iteration of the user map: every entry once. -/
def IterationOf (r : TodoRepository) (order : List (Int × User)) : Prop :=
  order.Perm r.users

end repository

namespace service

open models repository

/-- `validateTodoRequest`; `none` is `nil`. -/
def validateTodoRequest (req : dto.CreateTodoRequest) : Option Err :=
  if strings.TrimSpace req.Text = "" then some Err.ErrInvalidTodoText
  else if req.UserID ≤ 0 then some Err.ErrInvalidUserID
  else none

/-- `GetAllTodos`. -/
def GetAllTodos (r : TodoRepository) : Except Err (List Todo) := .ok (FindAll r)

/-- `GetAllUsers` of the rule engine; `order` is the map iteration order of
the store call. -/
def GetAllUsers (r : TodoRepository) (order : List (Int × User)) : Except Err (List User) :=
  .ok (repository.GetAllUsers r order)

/-- `GetTodosByUser`. -/
def GetTodosByUser (r : TodoRepository) (userID : Int) : Except Err (List Todo) :=
  if userID ≤ 0 then .error Err.ErrInvalidUserID
  else match GetUserByID r userID with
    | .error err => .error err
    | .ok _ => .ok (FindByUserID r userID)

/-- `GetTodoByID`. -/
def GetTodoByID (r : TodoRepository) (id : Int) : Except Err Todo :=
  if id ≤ 0 then .error (Err.adhoc "invalid todo ID") else FindByID r id

/-- `CreateTodo`; `now` is its `time.Now()`. -/
def CreateTodo (r : TodoRepository) (req : dto.CreateTodoRequest) (now : Time) :
    TodoRepository × Except Err Todo :=
  match validateTodoRequest req with
  | some err => (r, .error err)
  | none =>
    match GetUserByID r req.UserID with
    | .error _ => (r, .error Err.ErrUserNotFound)
    | .ok user =>
      Create r
        { ID := 0
          Text := strings.TrimSpace req.Text
          Completed := req.Completed
          UserID := req.UserID
          CreatedBy := user.Name
          CreatedAt := now
          UpdatedAt := now }

/-- `CreateTodo` with the machine counter: the same body, calling
`CreateInt64`. -/
def CreateTodoInt64 (r : TodoRepository) (req : dto.CreateTodoRequest) (now : Time) :
    TodoRepository × Except Err Todo :=
  match validateTodoRequest req with
  | some err => (r, .error err)
  | none =>
    match GetUserByID r req.UserID with
    | .error _ => (r, .error Err.ErrUserNotFound)
    | .ok user =>
      CreateInt64 r
        { ID := 0
          Text := strings.TrimSpace req.Text
          Completed := req.Completed
          UserID := req.UserID
          CreatedBy := user.Name
          CreatedAt := now
          UpdatedAt := now }

/-- `DeleteTodo`. -/
def DeleteTodo (r : TodoRepository) (id : Int) : TodoRepository × Option Err :=
  if id ≤ 0 then (r, some (Err.adhoc "invalid todo ID"))
  else match FindByID r id with
    | .error err => (r, some err)
    | .ok _ => Delete r id

/-- `ToggleTodo`; `now` is its `time.Now()`. -/
def ToggleTodo (r : TodoRepository) (id : Int) (now : Time) :
    TodoRepository × Except Err Todo :=
  if id ≤ 0 then (r, .error (Err.adhoc "invalid todo ID"))
  else match FindByID r id with
    | .error err => (r, .error err)
    | .ok todo => Update r { todo with Completed := !todo.Completed, UpdatedAt := now }

/-- `UpdateTodo`; `now` is its `time.Now()`. -/
def UpdateTodo (r : TodoRepository) (id : Int) (req : dto.CreateTodoRequest) (now : Time) :
    TodoRepository × Except Err Todo :=
  if id ≤ 0 then (r, .error (Err.adhoc "invalid todo ID"))
  else match validateTodoRequest req with
    | some err => (r, .error err)
    | none =>
      match FindByID r id with
      | .error err => (r, .error err)
      | .ok todo =>
        Update r { todo with
          Text := strings.TrimSpace req.Text
          Completed := req.Completed
          UpdatedAt := now }

end service

namespace helpers

/-- `ParseJSONError` (internal/helpers/response.go); the argument is `none`
for a `nil` error and the text of `err.Error()` otherwise.  The apostrophe in
the returned messages is written `\x27`. -/
def ParseJSONError (err : Option String) : String :=
  match err with
  | none => "Invalid request payload"
  | some errMsg =>
    if strings.Contains errMsg "cannot unmarshal" then
      if strings.Contains errMsg "bool" then
        if strings.Contains errMsg "completed" then
          "Field \x27completed\x27 must be a boolean value (true or false)"
        else "One of the fields must be a boolean value (true or false)"
      else if strings.Contains errMsg "number" || strings.Contains errMsg "int" then
        if strings.Contains errMsg "user_id" then "Field \x27user_id\x27 must be a number"
        else "One of the fields must be a number"
      else if strings.Contains errMsg "string" then
        if strings.Contains errMsg "text" then "Field \x27text\x27 must be a string"
        else "One of the fields must be a string"
      else "Invalid data type for one or more fields"
    else if strings.Contains errMsg "missing" then "Required field is missing"
    else if strings.Contains errMsg "invalid character" then
      "Invalid JSON format. Please check your request payload"
    else if strings.Contains errMsg "EOF" then
      "Empty request body. Please provide valid JSON data"
    else if strings.Contains errMsg "unknown field" then "Request contains unknown field(s)"
    else "Invalid request payload. Please check your data format"

/-- The text of the error that Go's `encoding/json` returns when a JSON value
of kind `kind` (string, number, bool, array, object) meets the field `field`
of `dto.CreateTodoRequest`, whose Go type is `typ`. -/
def typeMismatch (kind field typ : String) : String :=
  "json: cannot unmarshal " ++ kind ++ " into Go struct field CreateTodoRequest." ++ field ++
    " of type " ++ typ

end helpers

/-! ## Scenarios -/

namespace repository

open models

/-- Successive `Create` calls, one per todo of the list and with no other
write in between; the results are in call order. -/
def createMany : TodoRepository → List Todo → TodoRepository × List (Except Err Todo)
  | r, [] => (r, [])
  | r, todo :: rest =>
    let step := Create r todo
    let tail := createMany step.1 rest
    (tail.1, step.2 :: tail.2)

/-- Successive `CreateInt64` calls, one per todo of the list and with no other
write in between; the results are in call order. -/
def createManyInt64 : TodoRepository → List Todo → TodoRepository × List (Except Err Todo)
  | r, [] => (r, [])
  | r, todo :: rest =>
    let step := CreateInt64 r todo
    let tail := createManyInt64 step.1 rest
    (tail.1, step.2 :: tail.2)

/-- A write of the store. -/
inductive StoreOp where
  | create (todo : Todo)
  | update (todo : Todo)
  | delete (id : Int)
deriving DecidableEq, Repr

/-- The store after one write; the result of the call is dropped. -/
def applyOp (r : TodoRepository) : StoreOp → TodoRepository
  | .create todo => (Create r todo).1
  | .update todo => (Update r todo).1
  | .delete id => (Delete r id).1

/-- The store after a sequence of writes, first to last. -/
def runOps (r : TodoRepository) (ops : List StoreOp) : TodoRepository :=
  ops.foldl applyOp r

/-- The identities of the collection, in collection order. -/
def ids (r : TodoRepository) : List Int := r.todos.map (·.ID)

/-- The identities are strictly increasing in collection order, at least `1`
and below the counter, and the counter is at least `1`. -/
def IdInv (r : TodoRepository) : Prop :=
  (ids r).Pairwise (· < ·) ∧ (∀ id ∈ ids r, 1 ≤ id ∧ id < r.nextID) ∧ 1 ≤ r.nextID

/-- The keys of the user map. -/
def userIDs (r : TodoRepository) : List Int := r.users.map Prod.fst

end repository

namespace service

open models repository

/-- A call of the rule engine; `now` is the clock reading of the call. -/
inductive ServiceOp where
  | getAllTodos
  | getTodosByUser (userID : Int)
  | getTodoByID (id : Int)
  | createTodo (req : dto.CreateTodoRequest) (now : Time)
  | deleteTodo (id : Int)
  | toggleTodo (id : Int) (now : Time)
  | updateTodo (id : Int) (req : dto.CreateTodoRequest) (now : Time)
deriving DecidableEq, Repr

/-- The store after one call of the rule engine; the reads leave it as it is. -/
def applyServiceOp (r : TodoRepository) : ServiceOp → TodoRepository
  | .getAllTodos => r
  | .getTodosByUser _ => r
  | .getTodoByID _ => r
  | .createTodo req now => (CreateTodo r req now).1
  | .deleteTodo id => (DeleteTodo r id).1
  | .toggleTodo id now => (ToggleTodo r id now).1
  | .updateTodo id req now => (UpdateTodo r id req now).1

/-- The store after a sequence of rule-engine calls, first to last. -/
def runService (r : TodoRepository) (ops : List ServiceOp) : TodoRepository :=
  ops.foldl applyServiceOp r

/-- Fresh store, then two todos for user 1 and one for user 2. -/
def filterScenario : TodoRepository :=
  runService (NewTodoRepository 0)
    [.createTodo ⟨"buy milk", 1, false⟩ 1, .createTodo ⟨"walk dog", 2, false⟩ 2,
     .createTodo ⟨"pay rent", 1, true⟩ 3]

/-- No stored text is empty and every stored text is its own trimmed form. -/
def TextInv (r : TodoRepository) : Prop :=
  ∀ t ∈ r.todos, t.Text ≠ "" ∧ strings.TrimSpace t.Text = t.Text

/-- The owning user of every stored todo is a key of the user map and the
creator-name of the todo is the display name of that user. -/
def OwnerInv (r : TodoRepository) : Prop :=
  ∀ t ∈ r.todos, t.UserID ∈ userIDs r ∧
    ∃ user, GetUserByID r t.UserID = .ok user ∧ t.CreatedBy = user.Name

/-- The clock reading a rule-engine call makes, if it makes one. -/
def opClock : ServiceOp → Option Time
  | .createTodo _ now => some now
  | .toggleTodo _ now => some now
  | .updateTodo _ _ now => some now
  | _ => none

/-- The clock readings of a sequence of calls, in call order. -/
def clockReadings (ops : List ServiceOp) : List Time := ops.filterMap opClock

/-- Every stored todo has created-at `<=` updated-at `<=` the instant `c`. -/
def TimeInv (r : TodoRepository) (c : Time) : Prop :=
  ∀ t ∈ r.todos, t.CreatedAt ≤ t.UpdatedAt ∧ t.UpdatedAt ≤ c

/-- A call on the store, made directly or through the rule engine. -/
inductive AnyOp where
  | store (op : StoreOp)
  | service (op : ServiceOp)
deriving DecidableEq, Repr

/-- The store after one call of either kind. -/
def applyAnyOp (r : TodoRepository) : AnyOp → TodoRepository
  | .store op => applyOp r op
  | .service op => applyServiceOp r op

/-- The store after a sequence of calls of either kind, first to last. -/
def runAnyOps (r : TodoRepository) (ops : List AnyOp) : TodoRepository :=
  ops.foldl applyAnyOp r

/-- The identity `id` has been assigned and is not stored. -/
def Gone (r : TodoRepository) (id : Int) : Prop :=
  id < r.nextID ∧ ∀ t ∈ r.todos, t.ID ≠ id

/-- `ToggleTodo` with the write `between` of another caller taking effect
between its two store calls: `FindByID` reads the store as given and `Update`
writes to the store the other caller left. -/
def ToggleTodoBetween (between : TodoRepository → TodoRepository) (r : TodoRepository)
    (id : Int) (now : Time) : TodoRepository × Except Err Todo :=
  if id ≤ 0 then (between r, .error (Err.adhoc "invalid todo ID"))
  else match FindByID r id with
    | .error err => (between r, .error err)
    | .ok todo =>
      Update (between r) { todo with Completed := !todo.Completed, UpdatedAt := now }

/-- A store with the single todo 1, "buy milk" of user 1, created at instant 1. -/
def raceScenario : TodoRepository :=
  (CreateTodo (NewTodoRepository 0) ⟨"buy milk", 1, false⟩ 1).1

/-- A `CreateTodo` call in flight.  Its store calls are its atomic steps:
`start` is before the call of `GetUserByID`, `built` is between `GetUserByID`
and `Create` and holds the todo the call has built, `done` is after the
return. -/
inductive CreateCall where
  | start (req : dto.CreateTodoRequest) (now : Time)
  | built (todo : Todo)
  | done (result : Except Err Todo)
deriving DecidableEq, Repr

/-- The call has returned. -/
def CreateCall.isDone : CreateCall → Bool
  | .done _ => true
  | _ => false

/-- The next atomic step of a `CreateTodo` call on the store: validation and
the locked `GetUserByID`, then the locked `Create`. -/
def stepCreateCall (r : TodoRepository) : CreateCall → TodoRepository × CreateCall
  | .start req now =>
    match validateTodoRequest req with
    | some err => (r, .done (.error err))
    | none =>
      match GetUserByID r req.UserID with
      | .error _ => (r, .done (.error Err.ErrUserNotFound))
      | .ok user =>
        (r, .built
          { ID := 0
            Text := strings.TrimSpace req.Text
            Completed := req.Completed
            UserID := req.UserID
            CreatedBy := user.Name
            CreatedAt := now
            UpdatedAt := now })
  | .built todo => ((Create r todo).1, .done (Create r todo).2)
  | .done result => (r, .done result)

/-- The scheduler lets caller `i` take its next step on the shared store. -/
def stepThread (s : TodoRepository × List CreateCall) (i : Nat) :
    TodoRepository × List CreateCall :=
  match s.2[i]? with
  | none => s
  | some call => ((stepCreateCall s.1 call).1, s.2.set i (stepCreateCall s.1 call).2)

/-- The store and the calls after the schedule, a sequence of caller indices. -/
def runSchedule (s : TodoRepository × List CreateCall) (sched : List Nat) :
    TodoRepository × List CreateCall :=
  sched.foldl stepThread s

/-- Concurrent `CreateTodo` calls, one per request and clock reading, against
the fresh store under the schedule `sched`. -/
def concurrentCreates (now0 : Time) (reqs : List (dto.CreateTodoRequest × Time))
    (sched : List Nat) : TodoRepository × List CreateCall :=
  runSchedule (NewTodoRepository now0, reqs.map (fun q => CreateCall.start q.1 q.2)) sched

/-- The invariant of concurrent creates: the users are `users`, the stored
identities are `1, ..., k` and the counter is `k + 1` for the number `k` of
calls that have returned, and every call is a valid one not yet started, or
one that has built its todo, or one that has returned a stored todo. -/
def RaceInv (users : List (Int × User)) (s : TodoRepository × List CreateCall) : Prop :=
  s.1.users = users ∧
  ids s.1 = (List.range (s.2.countP CreateCall.isDone)).map (fun (i : Nat) => (i : Int) + 1) ∧
  s.1.nextID = ((s.2.countP CreateCall.isDone : Nat) : Int) + 1 ∧
  ∀ c ∈ s.2,
    (∃ req now, c = .start req now ∧ validateTodoRequest req = none ∧
      ∃ user, users.lookup req.UserID = some user) ∨
    (∃ todo, c = .built todo) ∨
    (∃ t, c = .done (.ok t) ∧ t ∈ s.1.todos)

end service

open models repository service

/-! ## Store: identity assignment -/

theorem mapIdx_ID_eq_range (k : Int) (ts : List Todo) :
    (ts.mapIdx (fun i t => { t with ID := k + (i : Int) })).map (·.ID) =
      (List.range ts.length).map (fun (i : Nat) => k + (i : Int)) := by
  apply List.ext_getElem?
  intro i
  simp only [List.getElem?_map, List.getElem?_mapIdx, List.getElem?_range]
  by_cases h : i < ts.length
  · simp [List.getElem?_eq_getElem h, List.getElem?_range h]
  · have h1 : ts.length ≤ i := Nat.le_of_not_lt h
    rw [List.getElem?_eq_none h1, List.getElem?_eq_none (by simpa using h1)]
    rfl

theorem range_offset_nodup (k : Int) (n : Nat) :
    ((List.range n).map (fun (i : Nat) => k + (i : Int))).Nodup := by
  apply List.Nodup.map _ (List.nodup_range n)
  intro a b hab
  have : (a : Int) = b := by simpa using hab
  exact_mod_cast this

theorem createMany_eq (ts : List Todo) : ∀ r : TodoRepository,
    createMany r ts =
      ({ r with todos := r.todos ++ ts.mapIdx (fun i t => { t with ID := r.nextID + (i : Int) }),
                nextID := r.nextID + ts.length },
       (ts.mapIdx (fun i t => { t with ID := r.nextID + (i : Int) })).map Except.ok) := by
  induction ts with
  | nil => intro r; simp [createMany]
  | cons t ts ih =>
    intro r
    have hf : (fun (i : Nat) (t : Todo) => { t with ID := r.nextID + 1 + (i : Int) }) =
        (fun (i : Nat) (t : Todo) => { t with ID := r.nextID + ((i + 1 : Nat) : Int) }) := by
      funext i t
      have : r.nextID + 1 + (i : Int) = r.nextID + ((i + 1 : Nat) : Int) := by push_cast; ring
      rw [this]
    simp only [createMany, ih, Create, List.mapIdx_cons, List.map_cons, List.length_cons, hf]
    simp [List.append_assoc]
    ring

theorem wrapInt64_of_range (x : Int) (hlo : -(2 : Int) ^ 63 ≤ x) (hhi : x ≤ 2 ^ 63 - 1) :
    wrapInt64 x = x := by
  unfold wrapInt64
  omega

theorem CreateInt64_eq_Create (r : TodoRepository) (todo : Todo)
    (hlo : -(2 : Int) ^ 63 ≤ r.nextID) (hhi : r.nextID + 1 ≤ 2 ^ 63 - 1) :
    CreateInt64 r todo = Create r todo := by
  simp only [CreateInt64, Create, wrapInt64_of_range (r.nextID + 1) (by omega) hhi]

theorem createManyInt64_eq_createMany (ts : List Todo) : ∀ r : TodoRepository,
    -(2 : Int) ^ 63 ≤ r.nextID → r.nextID + (ts.length : Int) ≤ 2 ^ 63 - 1 →
    createManyInt64 r ts = createMany r ts := by
  induction ts with
  | nil => intro r _ _; rfl
  | cons t ts ih =>
    intro r hlo hhi
    simp only [List.length_cons, Nat.cast_add, Nat.cast_one] at hhi
    have hstep : CreateInt64 r t = Create r t :=
      CreateInt64_eq_Create r t hlo (by omega)
    have hnext : (Create r t).1.nextID = r.nextID + 1 := rfl
    simp only [createManyInt64, createMany, hstep]
    rw [ih (Create r t).1 (by rw [hnext]; omega) (by rw [hnext]; omega)]

/-- C1 as amended: from a store whose counter `k` is a 64-bit `int`, one
`Create` per todo of a list of length `N` with `k + N <= 2^63 - 1` succeeds
every time; the results are the given todos with the identities
`k, k+1, ..., k+N-1` in call order, which are pairwise distinct; the created
todos are appended to the collection in that order and the counter ends at
`k+N`. -/
theorem create_many_consecutive_ids_in_range (r : TodoRepository) (ts : List Todo)
    (hlo : -(2 : Int) ^ 63 ≤ r.nextID) (hhi : r.nextID + (ts.length : Int) ≤ 2 ^ 63 - 1) :
    ∃ created : List Todo,
      createManyInt64 r ts =
        ({ r with todos := r.todos ++ created, nextID := r.nextID + ts.length },
         created.map Except.ok) ∧
      created = ts.mapIdx (fun i t => { t with ID := r.nextID + (i : Int) }) ∧
      created.map (·.ID) = (List.range ts.length).map (fun (i : Nat) => r.nextID + (i : Int)) ∧
      (created.map (·.ID)).Nodup :=
  ⟨_, (createManyInt64_eq_createMany ts r hlo hhi).trans (createMany_eq ts r), rfl,
    mapIdx_ID_eq_range r.nextID ts, by
    rw [mapIdx_ID_eq_range]; exact range_offset_nodup r.nextID ts.length⟩

/-- Witness of C1: two creates on the fresh store give the identities 1 and 2
and the counter 3. -/
theorem create_many_consecutive_ids_in_range_witness :
    ∃ created : List Todo,
      createManyInt64 (NewTodoRepository 0)
          [⟨0, "buy milk", false, 1, "John Doe", 1, 1⟩, ⟨9, "walk dog", true, 2, "Jane Smith", 2, 2⟩] =
        ({ NewTodoRepository 0 with
            todos := (NewTodoRepository 0).todos ++ created,
            nextID := (NewTodoRepository 0).nextID +
              ([⟨0, "buy milk", false, 1, "John Doe", 1, 1⟩,
                ⟨9, "walk dog", true, 2, "Jane Smith", 2, 2⟩] : List Todo).length },
         created.map Except.ok) ∧
      created = ([⟨0, "buy milk", false, 1, "John Doe", 1, 1⟩,
          ⟨9, "walk dog", true, 2, "Jane Smith", 2, 2⟩] : List Todo).mapIdx
        (fun i t => { t with ID := (NewTodoRepository 0).nextID + (i : Int) }) ∧
      created.map (·.ID) =
        (List.range ([⟨0, "buy milk", false, 1, "John Doe", 1, 1⟩,
          ⟨9, "walk dog", true, 2, "Jane Smith", 2, 2⟩] : List Todo).length).map
          (fun (i : Nat) => (NewTodoRepository 0).nextID + (i : Int)) ∧
      (created.map (·.ID)).Nodup :=
  create_many_consecutive_ids_in_range (NewTodoRepository 0)
    [⟨0, "buy milk", false, 1, "John Doe", 1, 1⟩, ⟨9, "walk dog", true, 2, "Jane Smith", 2, 2⟩]
    (by decide) (by decide)

/-- C1 as stated fails: from a store whose counter is the largest 64-bit
`int`, `k = 2^63 - 1`, two successive creates return the identities `k` and
`-2^63`, not `k` and `k + 1`, and leave the counter at `-2^63 + 1`, not at
`k + 2`. -/
theorem create_many_wraps_counterexample :
    (createManyInt64 ⟨[], [], 9223372036854775807⟩
        [⟨0, "buy milk", false, 1, "John Doe", 1, 1⟩,
         ⟨0, "walk dog", false, 1, "John Doe", 2, 2⟩]).2 =
      [.ok ⟨9223372036854775807, "buy milk", false, 1, "John Doe", 1, 1⟩,
       .ok ⟨-9223372036854775808, "walk dog", false, 1, "John Doe", 2, 2⟩] ∧
    (createManyInt64 ⟨[], [], 9223372036854775807⟩
        [⟨0, "buy milk", false, 1, "John Doe", 1, 1⟩,
         ⟨0, "walk dog", false, 1, "John Doe", 2, 2⟩]).1.nextID = -9223372036854775807 ∧
    (-9223372036854775808 : Int) ≠ 9223372036854775807 + 1 ∧
    (-9223372036854775807 : Int) ≠ 9223372036854775807 + 2 := by
  decide

/-! ## Store: the identity invariant -/

theorem indexOfID_set_ids (todo : Todo) : ∀ (l : List Todo) (i : Nat),
    indexOfID l todo.ID = some i → (l.set i todo).map (·.ID) = l.map (·.ID) := by
  intro l
  induction l with
  | nil => intro i h; simp [indexOfID] at h
  | cons t rest ih =>
    intro i h
    unfold indexOfID at h
    split at h
    · next heq =>
      cases h
      simp [heq]
    · cases hrest : indexOfID rest todo.ID with
      | none => simp [hrest] at h
      | some j =>
        simp [hrest] at h
        subst h
        simp [ih j hrest]

theorem take_drop_sublist {α : Type} (l : List α) (i : Nat) :
    (l.take i ++ l.drop (i + 1)).Sublist l := by
  rw [← List.eraseIdx_eq_take_drop_succ]
  exact List.eraseIdx_sublist l i

theorem IdInv_new (now : Time) : IdInv (NewTodoRepository now) := by
  simp [IdInv, ids, NewTodoRepository]

theorem IdInv_Create (r : TodoRepository) (todo : Todo) (h : IdInv r) :
    IdInv (Create r todo).1 := by
  obtain ⟨hp, hb, hk⟩ := h
  simp only [IdInv, ids, Create, List.map_append, List.map_cons, List.map_nil] at *
  refine ⟨?_, ?_, by omega⟩
  · rw [List.pairwise_append]
    refine ⟨hp, by simp, ?_⟩
    intro a ha b hb1
    simp only [List.mem_singleton] at hb1
    subst hb1
    exact (hb a ha).2
  · intro id hid
    rw [List.mem_append, List.mem_singleton] at hid
    rcases hid with hid | hid
    · have := hb id hid
      omega
    · omega

theorem IdInv_Update (r : TodoRepository) (todo : Todo) (h : IdInv r) :
    IdInv (Update r todo).1 := by
  unfold Update
  cases hi : indexOfID r.todos todo.ID with
  | none => exact h
  | some i =>
    have hids := indexOfID_set_ids todo r.todos i hi
    simp only [IdInv, ids] at *
    rw [hids]
    exact h

theorem IdInv_Delete (r : TodoRepository) (id : Int) (h : IdInv r) :
    IdInv (Delete r id).1 := by
  unfold Delete
  cases hi : indexOfID r.todos id with
  | none => exact h
  | some i =>
    obtain ⟨hp, hb, hk⟩ := h
    have hsub : ((r.todos.take i ++ r.todos.drop (i + 1)).map (·.ID)).Sublist
        (r.todos.map (·.ID)) := (take_drop_sublist r.todos i).map _
    simp only [IdInv, ids] at *
    exact ⟨hp.sublist hsub, fun a ha => hb a (hsub.subset ha), hk⟩

theorem IdInv_applyOp (r : TodoRepository) (op : StoreOp) (h : IdInv r) :
    IdInv (applyOp r op) := by
  cases op with
  | create todo => exact IdInv_Create r todo h
  | update todo => exact IdInv_Update r todo h
  | delete id => exact IdInv_Delete r id h

theorem IdInv_runOps (ops : List StoreOp) : ∀ r : TodoRepository, IdInv r →
    IdInv (runOps r ops) := by
  induction ops with
  | nil => intro r h; exact h
  | cons op ops ih => intro r h; exact ih _ (IdInv_applyOp r op h)

theorem nextID_le_applyOp (r : TodoRepository) (op : StoreOp) :
    r.nextID ≤ (applyOp r op).nextID := by
  cases op with
  | create todo => simp [applyOp, Create]
  | update todo =>
    simp only [applyOp, Update]
    cases indexOfID r.todos todo.ID <;> simp
  | delete id =>
    simp only [applyOp, Delete]
    cases indexOfID r.todos id <;> simp

theorem nextID_le_runOps (ops : List StoreOp) : ∀ r : TodoRepository,
    r.nextID ≤ (runOps r ops).nextID := by
  induction ops with
  | nil => intro r; exact le_refl _
  | cons op ops ih => intro r; exact le_trans (nextID_le_applyOp r op) (ih _)

/-- C2: in the store reached from `NewTodoRepository` by any sequence of
`Create`, `Update` and `Delete` calls the stored identities are pairwise
distinct, strictly increasing in collection order, at least `1` and below the
counter; no further sequence of writes decreases the counter; and an identity
that is stored at some moment is never assigned by a later `Create`, whatever
was written (or deleted) in between. -/
theorem store_ids_unique_increasing_never_reused (now : Time) (ops : List StoreOp) :
    (ids (runOps (NewTodoRepository now) ops)).Nodup ∧
    (ids (runOps (NewTodoRepository now) ops)).Pairwise (· < ·) ∧
    (∀ id ∈ ids (runOps (NewTodoRepository now) ops),
      1 ≤ id ∧ id < (runOps (NewTodoRepository now) ops).nextID) ∧
    (∀ later : List StoreOp, (runOps (NewTodoRepository now) ops).nextID ≤
      (runOps (runOps (NewTodoRepository now) ops) later).nextID) ∧
    (∀ id ∈ ids (runOps (NewTodoRepository now) ops), ∀ (later : List StoreOp) (todo : Todo),
      ∃ created, (Create (runOps (runOps (NewTodoRepository now) ops) later) todo).2 = .ok created ∧
        id < created.ID) := by
  have hinv := IdInv_runOps ops _ (IdInv_new now)
  obtain ⟨hp, hb, _⟩ := hinv
  refine ⟨?_, hp, hb, fun later => nextID_le_runOps later _, ?_⟩
  · exact hp.imp (fun h => ne_of_lt h)
  · intro id hid later todo
    refine ⟨_, rfl, ?_⟩
    have h1 := (hb id hid).2
    have h2 := nextID_le_runOps later (runOps (NewTodoRepository now) ops)
    simp only
    omega



/-! ## Rule engine: creation -/

theorem GetUserByID_of_not_mem (r : TodoRepository) (userID : Int)
    (h : userID ∉ userIDs r) : GetUserByID r userID = .error (Err.adhoc "user not found") := by
  have hl : r.users.lookup userID = none := by
    rw [List.lookup_eq_none_iff]
    intro p hp
    rw [bne_iff_ne]
    intro hk
    apply h
    simp only [userIDs, List.mem_map]
    exact ⟨p, hp, hk.symm⟩
  simp [GetUserByID, hl]

theorem GetUserByID_of_mem (r : TodoRepository) (userID : Int)
    (h : userID ∈ userIDs r) : ∃ user, GetUserByID r userID = .ok user := by
  cases hl : r.users.lookup userID with
  | some user => exact ⟨user, by simp [GetUserByID, hl]⟩
  | none =>
    exfalso
    rw [List.lookup_eq_none_iff] at hl
    simp only [userIDs, List.mem_map] at h
    obtain ⟨p, hp, hk⟩ := h
    have := hl p hp
    rw [bne_iff_ne] at this
    exact this hk.symm

/-- C3: whatever the store, the user ID and the flag, `CreateTodo` with a text
that is empty after trimming fails with `ErrInvalidTodoText` (which is not
`ErrUserNotFound`), and with a text that is non-empty after trimming and a
user ID `<= 0` it fails with `ErrInvalidUserID`; the store it returns is the
store it was given. -/
theorem create_todo_validation_first (r : TodoRepository) (req : dto.CreateTodoRequest)
    (now : Time) :
    (strings.TrimSpace req.Text = "" →
      CreateTodo r req now = (r, .error Err.ErrInvalidTodoText) ∧
      (CreateTodo r req now).2 ≠ .error Err.ErrUserNotFound) ∧
    (strings.TrimSpace req.Text ≠ "" → req.UserID ≤ 0 →
      CreateTodo r req now = (r, .error Err.ErrInvalidUserID)) := by
  constructor
  · intro h
    have : CreateTodo r req now = (r, .error Err.ErrInvalidTodoText) := by
      simp [CreateTodo, validateTodoRequest, h]
    exact ⟨this, by rw [this]; simp⟩
  · intro h hu
    simp [CreateTodo, validateTodoRequest, h, hu]

/-- Witness of C3: the empty text for user 1 on a store without users, and
"buy milk" for user 0 on the fresh store. -/
theorem create_todo_validation_first_witness :
    (CreateTodo ⟨[], [], 1⟩ ⟨"", 1, false⟩ 0 = (⟨[], [], 1⟩, .error Err.ErrInvalidTodoText) ∧
      (CreateTodo ⟨[], [], 1⟩ ⟨"", 1, false⟩ 0).2 ≠ .error Err.ErrUserNotFound) ∧
    CreateTodo (NewTodoRepository 0) ⟨"buy milk", 0, false⟩ 0 =
      (NewTodoRepository 0, .error Err.ErrInvalidUserID) :=
  ⟨(create_todo_validation_first ⟨[], [], 1⟩ ⟨"", 1, false⟩ 0).1 (by decide),
   (create_todo_validation_first (NewTodoRepository 0) ⟨"buy milk", 0, false⟩ 0).2
     (by decide) (by decide)⟩

/-- C4: with a text that is non-empty after trimming and a user ID `> 0` that
is no key of the user map, `CreateTodo` fails with `ErrUserNotFound` and
returns the store it was given: no todo is appended and the counter is not
advanced. -/
theorem create_todo_unknown_user (r : TodoRepository) (req : dto.CreateTodoRequest)
    (now : Time) (htext : strings.TrimSpace req.Text ≠ "") (hpos : 0 < req.UserID)
    (huser : req.UserID ∉ userIDs r) :
    CreateTodo r req now = (r, .error Err.ErrUserNotFound) ∧
    (CreateTodo r req now).1.todos = r.todos ∧
    (CreateTodo r req now).1.nextID = r.nextID := by
  have hv : validateTodoRequest req = none := by
    simp [validateTodoRequest, htext, not_le.mpr hpos]
  have : CreateTodo r req now = (r, .error Err.ErrUserNotFound) := by
    simp [CreateTodo, hv, GetUserByID_of_not_mem r req.UserID huser]
  simp [this]

/-- Witness of C4: "buy milk" for user 999 on the fresh store. -/
theorem create_todo_unknown_user_witness :
    CreateTodo (NewTodoRepository 0) ⟨"buy milk", 999, false⟩ 0 =
      (NewTodoRepository 0, .error Err.ErrUserNotFound) :=
  (create_todo_unknown_user (NewTodoRepository 0) ⟨"buy milk", 999, false⟩ 0
    (by decide) (by decide) (by decide)).1

/-! ## Store: lookup by identity -/

theorem findLoop_absent (id : Int) : ∀ l : List Todo, (∀ t ∈ l, t.ID ≠ id) →
    findLoop l id = .error Err.ErrTodoNotFound := by
  intro l
  induction l with
  | nil => intro _; rfl
  | cons t rest ih =>
    intro h
    have h1 : t.ID ≠ id := h t (List.mem_cons_self _ _)
    simp only [findLoop, if_neg h1]
    exact ih (fun x hx => h x (List.mem_cons_of_mem _ hx))

theorem findLoop_append_last (todo : Todo) : ∀ l : List Todo, (∀ t ∈ l, t.ID ≠ todo.ID) →
    findLoop (l ++ [todo]) todo.ID = .ok todo := by
  intro l
  induction l with
  | nil => intro _; simp [findLoop]
  | cons t rest ih =>
    intro h
    have h1 : t.ID ≠ todo.ID := h t (List.mem_cons_self _ _)
    simp only [List.cons_append, findLoop, if_neg h1]
    exact ih (fun x hx => h x (List.mem_cons_of_mem _ hx))

theorem FindByUserID_loop (userID : Int) : ∀ (l acc : List Todo),
    l.foldl (fun userTodos todo =>
      if todo.UserID = userID then userTodos ++ [todo] else userTodos) acc =
    acc ++ l.filter (fun t => decide (t.UserID = userID)) := by
  intro l
  induction l with
  | nil => intro acc; simp
  | cons t rest ih =>
    intro acc
    by_cases h : t.UserID = userID
    · simp [List.foldl_cons, ih, h]
    · simp [List.foldl_cons, ih, h]

theorem FindByUserID_eq_filter (r : TodoRepository) (userID : Int) :
    FindByUserID r userID = (FindAll r).filter (fun t => decide (t.UserID = userID)) := by
  simp [FindByUserID, FindAll, FindByUserID_loop]

theorem CreateTodoInt64_eq_CreateTodo (r : TodoRepository) (req : dto.CreateTodoRequest)
    (now : Time) (hlo : -(2 : Int) ^ 63 ≤ r.nextID) (hhi : r.nextID + 1 ≤ 2 ^ 63 - 1) :
    CreateTodoInt64 r req now = CreateTodo r req now := by
  unfold CreateTodoInt64 CreateTodo
  cases validateTodoRequest req with
  | some _ => rfl
  | none =>
    cases GetUserByID r req.UserID with
    | error _ => rfl
    | ok user => exact CreateInt64_eq_Create r _ hlo hhi

/-- C5 as amended: in a store whose identities are below the counter,
`CreateTodo` with a text that is non-empty after trimming, an existing user
whose identity is `> 0` and any flag succeeds; the returned todo has the
trimmed text, the flag, the user's identity, the user's display name as
creator-name, created-at = updated-at (the clock reading of the call) and the
counter before the call as identity; `FindByID` of that identity then returns
this todo and it is the last element of `FindAll`.  This holds with the
machine counter, whatever its value. -/
theorem create_todo_roundtrip (r : TodoRepository) (req : dto.CreateTodoRequest)
    (now : Time) (user : User)
    (hbelow : ∀ t ∈ r.todos, t.ID < r.nextID)
    (htext : strings.TrimSpace req.Text ≠ "")
    (hpos : 0 < req.UserID)
    (huser : GetUserByID r req.UserID = .ok user) :
    ∃ (r1 : TodoRepository) (todo : Todo),
      CreateTodoInt64 r req now = (r1, .ok todo) ∧
      todo = { ID := r.nextID, Text := strings.TrimSpace req.Text, Completed := req.Completed,
               UserID := req.UserID, CreatedBy := user.Name, CreatedAt := now,
               UpdatedAt := now } ∧
      todo.CreatedAt = todo.UpdatedAt ∧
      FindByID r1 todo.ID = .ok todo ∧
      (FindAll r1).getLast? = some todo ∧
      FindAll r1 = FindAll r ++ [todo] ∧
      r1.users = r.users ∧ r1.nextID = wrapInt64 (r.nextID + 1) := by
  have hv : validateTodoRequest req = none := by
    simp [validateTodoRequest, htext, not_le.mpr hpos]
  refine ⟨{ r with nextID := wrapInt64 (r.nextID + 1), todos := r.todos ++ [⟨r.nextID,
    strings.TrimSpace req.Text, req.Completed, req.UserID, user.Name, now, now⟩] },
    ⟨r.nextID, strings.TrimSpace req.Text, req.Completed, req.UserID, user.Name, now, now⟩,
    ?_, rfl, rfl, ?_, ?_, rfl, rfl, rfl⟩
  · simp [CreateTodoInt64, hv, huser, CreateInt64]
  · simp only [FindByID]
    apply findLoop_append_last
    intro t ht
    exact ne_of_lt (hbelow t ht)
  · simp [FindAll]

/-- Witness of C5: "  buy milk  " for user 1 on the fresh store is stored as
"buy milk" under identity 1 with creator-name "John Doe". -/
theorem create_todo_roundtrip_witness :
    ∃ (r1 : TodoRepository) (todo : Todo),
      CreateTodoInt64 (NewTodoRepository 0) ⟨"  buy milk  ", 1, false⟩ 7 = (r1, .ok todo) ∧
      todo = { ID := 1, Text := "buy milk", Completed := false, UserID := 1,
               CreatedBy := "John Doe", CreatedAt := 7, UpdatedAt := 7 } ∧
      todo.CreatedAt = todo.UpdatedAt ∧
      FindByID r1 todo.ID = .ok todo ∧
      (FindAll r1).getLast? = some todo ∧
      FindAll r1 = FindAll (NewTodoRepository 0) ++ [todo] ∧
      r1.users = (NewTodoRepository 0).users ∧
      r1.nextID = wrapInt64 ((NewTodoRepository 0).nextID + 1) :=
  create_todo_roundtrip (NewTodoRepository 0) ⟨"  buy milk  ", 1, false⟩ 7
    ⟨1, "John Doe", "john@example.com", 0⟩ (by decide) (by decide) (by decide) (by decide)

/-- At the bound: with the counter at the largest 64-bit `int` the create
still succeeds with that identity and the todo is found under it. -/
theorem create_todo_at_max_int :
    (CreateTodoInt64 ⟨[], SeedUsers 0, 9223372036854775807⟩ ⟨"buy milk", 1, false⟩ 7).2 =
      .ok ⟨9223372036854775807, "buy milk", false, 1, "John Doe", 7, 7⟩ ∧
    FindByID (CreateTodoInt64 ⟨[], SeedUsers 0, 9223372036854775807⟩
      ⟨"buy milk", 1, false⟩ 7).1 9223372036854775807 =
      .ok ⟨9223372036854775807, "buy milk", false, 1, "John Doe", 7, 7⟩ := by
  decide

/-- C5 as stated fails: in a store whose user map holds a user with identity
0, `CreateTodo` for that existing user and a valid text does not succeed: it
fails with `ErrInvalidUserID` and stores nothing. -/
theorem create_todo_user_zero_counterexample :
    (∀ t ∈ (⟨[], [(0, ⟨0, "Root", "root@example.com", 0⟩)], 1⟩ : TodoRepository).todos,
      t.ID < (⟨[], [(0, ⟨0, "Root", "root@example.com", 0⟩)], 1⟩ : TodoRepository).nextID) ∧
    strings.TrimSpace "buy milk" ≠ "" ∧
    GetUserByID ⟨[], [(0, ⟨0, "Root", "root@example.com", 0⟩)], 1⟩ 0 =
      .ok ⟨0, "Root", "root@example.com", 0⟩ ∧
    CreateTodoInt64 ⟨[], [(0, ⟨0, "Root", "root@example.com", 0⟩)], 1⟩ ⟨"buy milk", 0, false⟩ 7 =
      (⟨[], [(0, ⟨0, "Root", "root@example.com", 0⟩)], 1⟩, .error Err.ErrInvalidUserID) ∧
    CreateTodo ⟨[], [(0, ⟨0, "Root", "root@example.com", 0⟩)], 1⟩ ⟨"buy milk", 0, false⟩ 7 =
      (⟨[], [(0, ⟨0, "Root", "root@example.com", 0⟩)], 1⟩, .error Err.ErrInvalidUserID) := by
  decide

/-! ## Rule engine: todos of a user -/

/-- C6 at the failing input: on the fresh store `GetTodosByUser(999)` returns
the error that `GetUserByID` made with `errors.New("user not found")`, which is
not the sentinel `ErrUserNotFound` that `CreateTodo` returns for the same
missing user; for user 0 it returns `ErrInvalidUserID`. -/
theorem get_todos_by_user_missing_user_error :
    GetTodosByUser (NewTodoRepository 0) 999 = .error (Err.adhoc "user not found") ∧
    GetTodosByUser (NewTodoRepository 0) 999 ≠ .error Err.ErrUserNotFound ∧
    (CreateTodo (NewTodoRepository 0) ⟨"buy milk", 999, false⟩ 0).2 =
      .error Err.ErrUserNotFound ∧
    GetTodosByUser (NewTodoRepository 0) 0 = .error Err.ErrInvalidUserID := by
  decide

/-- C7: for a user ID `> 0` that is a key of the user map, `GetTodosByUser`
succeeds with the todos of `FindAll` whose owning-user identity is that ID, in
the order of `FindAll`; when the user owns no todo the result is the empty
sequence and no error. -/
theorem get_todos_by_user_filters (r : TodoRepository) (userID : Int)
    (hpos : 0 < userID) (huser : userID ∈ userIDs r) :
    GetTodosByUser r userID =
      .ok ((FindAll r).filter (fun t => decide (t.UserID = userID))) ∧
    ((FindAll r).filter (fun t => decide (t.UserID = userID))).Sublist (FindAll r) ∧
    ((∀ t ∈ FindAll r, t.UserID ≠ userID) → GetTodosByUser r userID = .ok []) := by
  obtain ⟨user, hu⟩ := GetUserByID_of_mem r userID huser
  have hres : GetTodosByUser r userID =
      .ok ((FindAll r).filter (fun t => decide (t.UserID = userID))) := by
    simp [GetTodosByUser, not_le.mpr hpos, hu, FindByUserID_eq_filter]
  refine ⟨hres, List.filter_sublist _, ?_⟩
  intro hnone
  rw [hres]
  congr 1
  rw [List.filter_eq_nil_iff]
  intro t ht
  simpa using hnone t ht

/-- Witness of C7: after two creates for user 1 and one for user 2 on the fresh
store, user 1 gets exactly the two todos 1 and 3 and user 3 gets none. -/
theorem get_todos_by_user_filters_witness :
    GetTodosByUser filterScenario 1 =
      .ok [⟨1, "buy milk", false, 1, "John Doe", 1, 1⟩,
           ⟨3, "pay rent", true, 1, "John Doe", 3, 3⟩] ∧
    GetTodosByUser filterScenario 3 = .ok [] :=
  ⟨(get_todos_by_user_filters filterScenario 1 (by decide) (by decide)).1.trans (by decide),
   (get_todos_by_user_filters filterScenario 3 (by decide) (by decide)).2.2 (by decide)⟩

/-! ## Store: the first index of an identity -/

theorem indexOfID_spec (id : Int) : ∀ (l : List Todo) (i : Nat), indexOfID l id = some i →
    ∃ t, l[i]? = some t ∧ t.ID = id ∧ findLoop l id = .ok t := by
  intro l
  induction l with
  | nil => intro i h; simp [indexOfID] at h
  | cons t rest ih =>
    intro i h
    by_cases ht : t.ID = id
    · simp only [indexOfID, if_pos ht, Option.some.injEq] at h
      subst h
      exact ⟨t, by simp, ht, by simp [findLoop, ht]⟩
    · simp only [indexOfID, if_neg ht] at h
      cases hrest : indexOfID rest id with
      | none => simp [hrest] at h
      | some j =>
        simp only [hrest, Option.map_some', Option.some.injEq] at h
        subst h
        obtain ⟨x, hx, hxid, hfind⟩ := ih j hrest
        exact ⟨x, by simpa using hx, hxid, by simp [findLoop, ht, hfind]⟩

theorem indexOfID_absent (id : Int) : ∀ l : List Todo, (∀ t ∈ l, t.ID ≠ id) →
    indexOfID l id = none := by
  intro l
  induction l with
  | nil => intro _; rfl
  | cons t rest ih =>
    intro h
    have h1 : t.ID ≠ id := h t (List.mem_cons_self _ _)
    simp [indexOfID, h1, ih (fun x hx => h x (List.mem_cons_of_mem _ hx))]

theorem indexOfID_of_mem_nodup (t : Todo) : ∀ l : List Todo, (l.map (·.ID)).Nodup → t ∈ l →
    ∃ i, indexOfID l t.ID = some i ∧ l[i]? = some t := by
  intro l
  induction l with
  | nil => intro _ h; simp at h
  | cons x rest ih =>
    intro hnd hmem
    rw [List.map_cons, List.nodup_cons] at hnd
    rcases List.mem_cons.mp hmem with rfl | hrest
    · exact ⟨0, by simp [indexOfID], by simp⟩
    · have hx : x.ID ≠ t.ID := by
        intro heq
        apply hnd.1
        rw [heq]
        exact List.mem_map_of_mem _ hrest
      obtain ⟨j, hj, hget⟩ := ih hnd.2 hrest
      exact ⟨j + 1, by simp [indexOfID, hx, hj], by simpa using hget⟩

theorem indexOfID_set (id : Int) (todo : Todo) (hid : todo.ID = id) :
    ∀ (l : List Todo) (i : Nat), indexOfID l id = some i →
      indexOfID (l.set i todo) id = some i ∧ findLoop (l.set i todo) id = .ok todo := by
  intro l
  induction l with
  | nil => intro i h; simp [indexOfID] at h
  | cons t rest ih =>
    intro i h
    by_cases ht : t.ID = id
    · simp only [indexOfID, if_pos ht, Option.some.injEq] at h
      subst h
      simp [indexOfID, findLoop, hid]
    · simp only [indexOfID, if_neg ht] at h
      cases hrest : indexOfID rest id with
      | none => simp [hrest] at h
      | some j =>
        simp only [hrest, Option.map_some', Option.some.injEq] at h
        subst h
        obtain ⟨h1, h2⟩ := ih j hrest
        simp [indexOfID, findLoop, ht, h1, h2]

theorem delete_removes_id (id : Int) : ∀ (l : List Todo) (i : Nat), (l.map (·.ID)).Nodup →
    indexOfID l id = some i → ∀ t ∈ l.take i ++ l.drop (i + 1), t.ID ≠ id := by
  intro l
  induction l with
  | nil => intro i _ h; simp [indexOfID] at h
  | cons x rest ih =>
    intro i hnd h
    rw [List.map_cons, List.nodup_cons] at hnd
    by_cases hx : x.ID = id
    · simp only [indexOfID, if_pos hx, Option.some.injEq] at h
      subst h
      intro t ht heq
      simp only [List.take_zero, List.nil_append, zero_add, List.drop_succ_cons,
        List.drop_zero] at ht
      apply hnd.1
      rw [hx, ← heq]
      exact List.mem_map_of_mem _ ht
    · simp only [indexOfID, if_neg hx] at h
      cases hrest : indexOfID rest id with
      | none => simp [hrest] at h
      | some j =>
        simp only [hrest, Option.map_some', Option.some.injEq] at h
        subst h
        intro t ht
        simp only [List.take_succ_cons, List.cons_append, List.drop_succ_cons,
          List.mem_cons] at ht
        rcases ht with rfl | ht
        · exact hx
        · exact ih j hnd.2 hrest t ht

/-! ## Rule engine: toggle and update -/

theorem ToggleTodo_at_index (r : TodoRepository) (id : Int) (now : Time) (t : Todo) (i : Nat)
    (hpos : 0 < id) (hi : indexOfID r.todos id = some i) (hget : r.todos[i]? = some t) :
    ToggleTodo r id now =
      ({ r with todos := (r.todos.set i
          (⟨t.ID, t.Text, !t.Completed, t.UserID, t.CreatedBy, t.CreatedAt, now⟩ : Todo)) },
       .ok ⟨t.ID, t.Text, !t.Completed, t.UserID, t.CreatedBy, t.CreatedAt, now⟩) := by
  obtain ⟨x, hx, hxid, hfind⟩ := indexOfID_spec id r.todos i hi
  have hxt : x = t := by rw [hget] at hx; exact (Option.some.inj hx).symm
  subst hxt
  have hi2 : indexOfID r.todos x.ID = some i := by rw [hxid]; exact hi
  simp [ToggleTodo, not_le.mpr hpos, FindByID, hfind, Update, hi2]

theorem UpdateTodo_at_index (r : TodoRepository) (id : Int) (req : dto.CreateTodoRequest)
    (now : Time) (t : Todo) (i : Nat) (hpos : 0 < id)
    (htext : strings.TrimSpace req.Text ≠ "") (huid : 0 < req.UserID)
    (hi : indexOfID r.todos id = some i) (hget : r.todos[i]? = some t) :
    UpdateTodo r id req now =
      ({ r with todos := (r.todos.set i
          (⟨t.ID, strings.TrimSpace req.Text, req.Completed, t.UserID, t.CreatedBy,
            t.CreatedAt, now⟩ : Todo)) },
       .ok ⟨t.ID, strings.TrimSpace req.Text, req.Completed, t.UserID, t.CreatedBy,
            t.CreatedAt, now⟩) := by
  obtain ⟨x, hx, hxid, hfind⟩ := indexOfID_spec id r.todos i hi
  have hxt : x = t := by rw [hget] at hx; exact (Option.some.inj hx).symm
  subst hxt
  have hi2 : indexOfID r.todos x.ID = some i := by rw [hxid]; exact hi
  have hv : validateTodoRequest req = none := by
    simp [validateTodoRequest, htext, not_le.mpr huid]
  simp [UpdateTodo, not_le.mpr hpos, hv, FindByID, hfind, Update, hi2]

/-- C8 as amended: in a store with pairwise distinct identities that holds a
todo `t` with identity `id > 0`, `ToggleTodo(id)` succeeds, stores at the
todo's index and returns `t` with the completed flag negated, and a second
`ToggleTodo(id)` stores and returns it with the flag of `t` again; identity,
text, owning user, creator-name and created-at are those of `t`; the updated-at
of each call is the clock reading of that call, so it is strictly later than
the one before it when the clock readings are strictly increasing. -/
theorem toggle_todo_twice (r : TodoRepository) (id : Int) (t : Todo) (now1 now2 : Time)
    (hnd : (ids r).Nodup) (hpos : 0 < id) (hmem : t ∈ r.todos) (hid : t.ID = id) :
    ∃ (r1 r2 : TodoRepository) (t1 t2 : Todo) (i : Nat),
      r.todos[i]? = some t ∧
      ToggleTodo r id now1 = (r1, .ok t1) ∧
      t1 = ⟨t.ID, t.Text, !t.Completed, t.UserID, t.CreatedBy, t.CreatedAt, now1⟩ ∧
      r1 = { r with todos := r.todos.set i t1 } ∧
      FindByID r1 id = .ok t1 ∧
      ToggleTodo r1 id now2 = (r2, .ok t2) ∧
      t2 = ⟨t.ID, t.Text, t.Completed, t.UserID, t.CreatedBy, t.CreatedAt, now2⟩ ∧
      r2 = { r with todos := r.todos.set i t2 } ∧
      FindByID r2 id = .ok t2 ∧
      (t.UpdatedAt < now1 → now1 < now2 →
        t.UpdatedAt < t1.UpdatedAt ∧ t1.UpdatedAt < t2.UpdatedAt) ∧
      (t1.UpdatedAt < t2.UpdatedAt ↔ now1 < now2) := by
  subst hid
  obtain ⟨i, hi, hget⟩ := indexOfID_of_mem_nodup t r.todos hnd hmem
  have hlt : i < r.todos.length := by
    rcases Nat.lt_or_ge i r.todos.length with h | h
    · exact h
    · rw [List.getElem?_eq_none h] at hget; cases hget
  have h1 := ToggleTodo_at_index r t.ID now1 t i hpos hi hget
  obtain ⟨hi1, hf1⟩ := indexOfID_set t.ID
    ⟨t.ID, t.Text, !t.Completed, t.UserID, t.CreatedBy, t.CreatedAt, now1⟩ rfl r.todos i hi
  have hget1 : (r.todos.set i
      (⟨t.ID, t.Text, !t.Completed, t.UserID, t.CreatedBy, t.CreatedAt, now1⟩ : Todo))[i]? =
      some ⟨t.ID, t.Text, !t.Completed, t.UserID, t.CreatedBy, t.CreatedAt, now1⟩ :=
    List.getElem?_set_self hlt
  have h2 := ToggleTodo_at_index
    { r with todos := (r.todos.set i
        (⟨t.ID, t.Text, !t.Completed, t.UserID, t.CreatedBy, t.CreatedAt, now1⟩ : Todo)) }
    t.ID now2 _ i hpos hi1 hget1
  simp only [Bool.not_not, List.set_set] at h2
  obtain ⟨_, hf2⟩ := indexOfID_set t.ID
    ⟨t.ID, t.Text, t.Completed, t.UserID, t.CreatedBy, t.CreatedAt, now2⟩ rfl r.todos i hi
  exact ⟨_, _, _, _, i, hget, h1, rfl, rfl, hf1, h2, rfl, rfl, hf2,
    fun ha hb => ⟨ha, hb⟩, Iff.rfl⟩

/-- Witness of C8: todo 1 of the fresh store after one create, toggled at the
clock readings 5 and 6. -/
theorem toggle_todo_twice_witness :
    ∃ (r1 r2 : TodoRepository) (t1 t2 : Todo) (i : Nat),
      (CreateTodo (NewTodoRepository 0) ⟨"buy milk", 1, false⟩ 3).1.todos[i]? =
        some ⟨1, "buy milk", false, 1, "John Doe", 3, 3⟩ ∧
      ToggleTodo (CreateTodo (NewTodoRepository 0) ⟨"buy milk", 1, false⟩ 3).1 1 5 =
        (r1, .ok t1) ∧
      t1 = ⟨1, "buy milk", true, 1, "John Doe", 3, 5⟩ ∧
      r1 = { (CreateTodo (NewTodoRepository 0) ⟨"buy milk", 1, false⟩ 3).1 with
        todos := (CreateTodo (NewTodoRepository 0) ⟨"buy milk", 1, false⟩ 3).1.todos.set i t1 } ∧
      FindByID r1 1 = .ok t1 ∧
      ToggleTodo r1 1 6 = (r2, .ok t2) ∧
      t2 = ⟨1, "buy milk", false, 1, "John Doe", 3, 6⟩ ∧
      r2 = { (CreateTodo (NewTodoRepository 0) ⟨"buy milk", 1, false⟩ 3).1 with
        todos := (CreateTodo (NewTodoRepository 0) ⟨"buy milk", 1, false⟩ 3).1.todos.set i t2 } ∧
      FindByID r2 1 = .ok t2 ∧
      ((3 : Nat) < 5 → (5 : Nat) < 6 → (3 : Nat) < t1.UpdatedAt ∧ t1.UpdatedAt < t2.UpdatedAt) ∧
      (t1.UpdatedAt < t2.UpdatedAt ↔ (5 : Nat) < 6) :=
  toggle_todo_twice (CreateTodo (NewTodoRepository 0) ⟨"buy milk", 1, false⟩ 3).1 1
    ⟨1, "buy milk", false, 1, "John Doe", 3, 3⟩ 5 6 (by decide) (by decide) (by decide) rfl

/-- C8 as stated fails: two `ToggleTodo` calls that read the same instant from
the clock return the same updated-at, not a strictly later one. -/
theorem toggle_same_clock_reading_counterexample :
    (ToggleTodo (CreateTodo (NewTodoRepository 0) ⟨"buy milk", 1, false⟩ 3).1 1 5).2 =
      .ok ⟨1, "buy milk", true, 1, "John Doe", 3, 5⟩ ∧
    (ToggleTodo
      (ToggleTodo (CreateTodo (NewTodoRepository 0) ⟨"buy milk", 1, false⟩ 3).1 1 5).1 1 5).2 =
      .ok ⟨1, "buy milk", false, 1, "John Doe", 3, 5⟩ ∧
    ¬ ((⟨1, "buy milk", true, 1, "John Doe", 3, 5⟩ : Todo).UpdatedAt <
        (⟨1, "buy milk", false, 1, "John Doe", 3, 5⟩ : Todo).UpdatedAt) := by
  decide

/-- C10: in a store with pairwise distinct identities that holds a todo `t`
with identity `id > 0`, `UpdateTodo` with a request whose text is non-empty
after trimming and whose user ID is `> 0` succeeds; the todo stored afterwards
has the trimmed request text and the request flag, while its identity, owning
user (whatever user the request names), creator-name and created-at are those
of `t`; it is stored at the index of `t`, every other index, the length, the
users and the counter are as before. -/
theorem update_todo_frame (r : TodoRepository) (id : Int) (t : Todo)
    (req : dto.CreateTodoRequest) (now : Time)
    (hnd : (ids r).Nodup) (hpos : 0 < id) (hmem : t ∈ r.todos) (hid : t.ID = id)
    (htext : strings.TrimSpace req.Text ≠ "") (huid : 0 < req.UserID) :
    ∃ (r1 : TodoRepository) (t1 : Todo) (i : Nat),
      r.todos[i]? = some t ∧
      UpdateTodo r id req now = (r1, .ok t1) ∧
      t1.Text = strings.TrimSpace req.Text ∧ t1.Completed = req.Completed ∧
      t1.ID = t.ID ∧ t1.UserID = t.UserID ∧ t1.CreatedBy = t.CreatedBy ∧
      t1.CreatedAt = t.CreatedAt ∧ t1.UpdatedAt = now ∧
      FindByID r1 id = .ok t1 ∧
      r1.todos[i]? = some t1 ∧
      (∀ j, j ≠ i → r1.todos[j]? = r.todos[j]?) ∧
      r1.todos.length = r.todos.length ∧
      r1.users = r.users ∧ r1.nextID = r.nextID := by
  subst hid
  obtain ⟨i, hi, hget⟩ := indexOfID_of_mem_nodup t r.todos hnd hmem
  have hlt : i < r.todos.length := by
    rcases Nat.lt_or_ge i r.todos.length with h | h
    · exact h
    · rw [List.getElem?_eq_none h] at hget; cases hget
  have h1 := UpdateTodo_at_index r t.ID req now t i hpos htext huid hi hget
  obtain ⟨_, hf1⟩ := indexOfID_set t.ID
    ⟨t.ID, strings.TrimSpace req.Text, req.Completed, t.UserID, t.CreatedBy, t.CreatedAt, now⟩
    rfl r.todos i hi
  refine ⟨_, _, i, hget, h1, rfl, rfl, rfl, rfl, rfl, rfl, rfl, hf1, ?_, ?_, ?_, rfl, rfl⟩
  · exact List.getElem?_set_self hlt
  · intro j hj
    exact List.getElem?_set_ne (Ne.symm hj)
  · simp

/-- Witness of C10: todo 1 of user 1 in `filterScenario`, updated by a request
that names user 2. -/
theorem update_todo_frame_witness :
    ∃ (r1 : TodoRepository) (t1 : Todo) (i : Nat),
      filterScenario.todos[i]? = some ⟨1, "buy milk", false, 1, "John Doe", 1, 1⟩ ∧
      UpdateTodo filterScenario 1 ⟨" buy bread ", 2, true⟩ 9 = (r1, .ok t1) ∧
      t1.Text = strings.TrimSpace " buy bread " ∧ t1.Completed = true ∧
      t1.ID = 1 ∧ t1.UserID = 1 ∧ t1.CreatedBy = "John Doe" ∧
      t1.CreatedAt = 1 ∧ t1.UpdatedAt = 9 ∧
      FindByID r1 1 = .ok t1 ∧
      r1.todos[i]? = some t1 ∧
      (∀ j, j ≠ i → r1.todos[j]? = filterScenario.todos[j]?) ∧
      r1.todos.length = filterScenario.todos.length ∧
      r1.users = filterScenario.users ∧ r1.nextID = filterScenario.nextID :=
  update_todo_frame filterScenario 1 ⟨1, "buy milk", false, 1, "John Doe", 1, 1⟩
    ⟨" buy bread ", 2, true⟩ 9 (by decide) (by decide) (by decide) rfl (by decide) (by decide)

/-! ## Rule engine: the identity invariant and deletion -/

theorem IdInv_applyServiceOp (r : TodoRepository) (op : ServiceOp) (h : IdInv r) :
    IdInv (applyServiceOp r op) := by
  cases op with
  | getAllTodos => exact h
  | getTodosByUser _ => exact h
  | getTodoByID _ => exact h
  | createTodo req now =>
    simp only [applyServiceOp, CreateTodo]
    cases validateTodoRequest req with
    | some _ => exact h
    | none =>
      cases GetUserByID r req.UserID with
      | error _ => exact h
      | ok user => exact IdInv_Create r _ h
  | deleteTodo id =>
    simp only [applyServiceOp, DeleteTodo]
    split
    · exact h
    · cases FindByID r id with
      | error _ => exact h
      | ok _ => exact IdInv_Delete r id h
  | toggleTodo id now =>
    simp only [applyServiceOp, ToggleTodo]
    split
    · exact h
    · cases FindByID r id with
      | error _ => exact h
      | ok _ => exact IdInv_Update r _ h
  | updateTodo id req now =>
    simp only [applyServiceOp, UpdateTodo]
    split
    · exact h
    · cases validateTodoRequest req with
      | some _ => exact h
      | none =>
        cases FindByID r id with
        | error _ => exact h
        | ok _ => exact IdInv_Update r _ h

theorem IdInv_runService (ops : List ServiceOp) : ∀ r : TodoRepository, IdInv r →
    IdInv (runService r ops) := by
  induction ops with
  | nil => intro r h; exact h
  | cons op ops ih => intro r h; exact ih _ (IdInv_applyServiceOp r op h)

theorem IdInv_nodup {r : TodoRepository} (h : IdInv r) : (ids r).Nodup :=
  h.1.imp (fun hlt => ne_of_lt hlt)

theorem DeleteTodo_success (r : TodoRepository) (id : Int) (hnd : (ids r).Nodup)
    (hdel : (DeleteTodo r id).2 = none) :
    0 < id ∧ ∀ t ∈ (DeleteTodo r id).1.todos, t.ID ≠ id := by
  unfold DeleteTodo at hdel ⊢
  by_cases hpos : id ≤ 0
  · simp [hpos] at hdel
  · simp only [if_neg hpos] at hdel ⊢
    refine ⟨not_le.mp hpos, ?_⟩
    cases hf : FindByID r id with
    | error e => simp [hf] at hdel
    | ok x =>
      simp only [hf] at hdel ⊢
      unfold Delete at hdel ⊢
      cases hi : indexOfID r.todos id with
      | none => simp [hi] at hdel
      | some i =>
        simp only [hi]
        exact delete_removes_id id r.todos i hnd hi

theorem not_found_when_absent (r : TodoRepository) (id : Int) (hpos : 0 < id)
    (habs : ∀ t ∈ r.todos, t.ID ≠ id) :
    (∀ now, ToggleTodo r id now = (r, .error Err.ErrTodoNotFound)) ∧
    (∀ req now, strings.TrimSpace req.Text ≠ "" → 0 < req.UserID →
      UpdateTodo r id req now = (r, .error Err.ErrTodoNotFound)) ∧
    GetTodoByID r id = .error Err.ErrTodoNotFound ∧
    DeleteTodo r id = (r, some Err.ErrTodoNotFound) := by
  have hf : FindByID r id = .error Err.ErrTodoNotFound := findLoop_absent id r.todos habs
  refine ⟨?_, ?_, ?_, ?_⟩
  · intro now
    simp [ToggleTodo, not_le.mpr hpos, hf]
  · intro req now htext huid
    have hv : validateTodoRequest req = none := by
      simp [validateTodoRequest, htext, not_le.mpr huid]
    simp [UpdateTodo, not_le.mpr hpos, hv, hf]
  · simp [GetTodoByID, not_le.mpr hpos, hf]
  · simp [DeleteTodo, not_le.mpr hpos, hf]

/-- C9: in a store reached from the fresh store through rule-engine calls,
when `DeleteTodo(id)` succeeds, then in the store it leaves `ToggleTodo(id)`,
`UpdateTodo(id, req)` for every valid request, `GetTodoByID(id)` and a second
`DeleteTodo(id)` fail with `ErrTodoNotFound` and leave the store as it is, and
`FindAll` has no todo with identity `id`. -/
theorem delete_then_not_found (now : Time) (ops : List ServiceOp) (id : Int)
    (hdel : (DeleteTodo (runService (NewTodoRepository now) ops) id).2 = none) :
    (∀ now1, ToggleTodo (DeleteTodo (runService (NewTodoRepository now) ops) id).1 id now1 =
      ((DeleteTodo (runService (NewTodoRepository now) ops) id).1,
        .error Err.ErrTodoNotFound)) ∧
    (∀ req now1, strings.TrimSpace req.Text ≠ "" → 0 < req.UserID →
      UpdateTodo (DeleteTodo (runService (NewTodoRepository now) ops) id).1 id req now1 =
        ((DeleteTodo (runService (NewTodoRepository now) ops) id).1,
          .error Err.ErrTodoNotFound)) ∧
    GetTodoByID (DeleteTodo (runService (NewTodoRepository now) ops) id).1 id =
      .error Err.ErrTodoNotFound ∧
    DeleteTodo (DeleteTodo (runService (NewTodoRepository now) ops) id).1 id =
      ((DeleteTodo (runService (NewTodoRepository now) ops) id).1,
        some Err.ErrTodoNotFound) ∧
    (∀ t ∈ FindAll (DeleteTodo (runService (NewTodoRepository now) ops) id).1, t.ID ≠ id) := by
  have hinv := IdInv_runService ops _ (IdInv_new now)
  obtain ⟨hpos, habs⟩ := DeleteTodo_success _ id (IdInv_nodup hinv) hdel
  obtain ⟨h1, h2, h3, h4⟩ := not_found_when_absent _ id hpos habs
  exact ⟨h1, h2, h3, h4, habs⟩

/-- Witness of C9: todo 1 deleted from `filterScenario`. -/
theorem delete_then_not_found_witness :
    GetTodoByID (DeleteTodo (runService (NewTodoRepository 0)
      [.createTodo ⟨"buy milk", 1, false⟩ 1, .createTodo ⟨"walk dog", 2, false⟩ 2]) 1).1 1 =
      .error Err.ErrTodoNotFound :=
  (delete_then_not_found 0
    [.createTodo ⟨"buy milk", 1, false⟩ 1, .createTodo ⟨"walk dog", 2, false⟩ 2] 1
    (by decide)).2.2.1

/-! ## Store: update and delete in place -/

theorem indexOfID_none (id : Int) : ∀ l : List Todo, indexOfID l id = none →
    ∀ t ∈ l, t.ID ≠ id := by
  intro l
  induction l with
  | nil => intro _ t ht; simp at ht
  | cons x rest ih =>
    intro h t ht
    by_cases hx : x.ID = id
    · simp [indexOfID, hx] at h
    · simp only [indexOfID, if_neg hx, Option.map_eq_none'] at h
      rcases List.mem_cons.mp ht with rfl | hrest
      · exact hx
      · exact ih h t hrest

theorem indexOfID_of_exists (id : Int) (l : List Todo) (h : ∃ x ∈ l, x.ID = id) :
    ∃ i, indexOfID l id = some i := by
  cases hi : indexOfID l id with
  | some i => exact ⟨i, rfl⟩
  | none =>
    obtain ⟨x, hx, hxid⟩ := h
    exact absurd hxid (indexOfID_none id l hi x hx)

theorem indexOfID_first (id : Int) : ∀ (l : List Todo) (i : Nat), indexOfID l id = some i →
    ∀ (j : Nat) (x : Todo), j < i → l[j]? = some x → x.ID ≠ id := by
  intro l
  induction l with
  | nil => intro i h; simp [indexOfID] at h
  | cons t rest ih =>
    intro i h j x hj hx
    by_cases ht : t.ID = id
    · simp only [indexOfID, if_pos ht, Option.some.injEq] at h
      omega
    · simp only [indexOfID, if_neg ht] at h
      cases hrest : indexOfID rest id with
      | none => simp [hrest] at h
      | some k =>
        simp only [hrest, Option.map_some', Option.some.injEq] at h
        subst h
        cases j with
        | zero =>
          simp only [List.getElem?_cons_zero, Option.some.injEq] at hx
          subst hx
          exact ht
        | succ j =>
          simp only [List.getElem?_cons_succ] at hx
          exact ih k hrest j x (by omega) hx

theorem indexOfID_lt_length (id : Int) (l : List Todo) (i : Nat)
    (h : indexOfID l id = some i) : i < l.length := by
  obtain ⟨x, hx, _, _⟩ := indexOfID_spec id l i h
  rcases Nat.lt_or_ge i l.length with hlt | hge
  · exact hlt
  · rw [List.getElem?_eq_none hge] at hx; cases hx

/-- C11: when some stored record has the identity of `t`, `Update(t)` succeeds
and returns `t`; the collection afterwards is the previous one with `t` at the
first index of that identity: same length, every other index, the users and
the counter as before.  When no stored record has that identity it fails with
`ErrTodoNotFound` and returns the store it was given. -/
theorem store_update_replaces_in_place (r : TodoRepository) (t : Todo) :
    ((∃ x ∈ r.todos, x.ID = t.ID) →
      ∃ (i : Nat) (old : Todo),
        r.todos[i]? = some old ∧ old.ID = t.ID ∧
        (∀ (j : Nat) (x : Todo), j < i → r.todos[j]? = some x → x.ID ≠ t.ID) ∧
        Update r t = ({ r with todos := r.todos.set i t }, .ok t) ∧
        (Update r t).1.todos.length = r.todos.length ∧
        (Update r t).1.todos[i]? = some t ∧
        (∀ j, j ≠ i → (Update r t).1.todos[j]? = r.todos[j]?) ∧
        (Update r t).1.users = r.users ∧ (Update r t).1.nextID = r.nextID) ∧
    ((∀ x ∈ r.todos, x.ID ≠ t.ID) → Update r t = (r, .error Err.ErrTodoNotFound)) := by
  constructor
  · intro hex
    obtain ⟨i, hi⟩ := indexOfID_of_exists t.ID r.todos hex
    obtain ⟨old, hold, hoid, _⟩ := indexOfID_spec t.ID r.todos i hi
    have hlt := indexOfID_lt_length t.ID r.todos i hi
    have hU : Update r t = ({ r with todos := r.todos.set i t }, .ok t) := by
      simp [Update, hi]
    refine ⟨i, old, hold, hoid, indexOfID_first t.ID r.todos i hi, hU, ?_, ?_, ?_, ?_, ?_⟩
    · simp [hU]
    · rw [hU]; exact List.getElem?_set_self hlt
    · intro j hj
      rw [hU]; exact List.getElem?_set_ne (Ne.symm hj)
    · simp [hU]
    · simp [hU]
  · intro habs
    simp [Update, indexOfID_absent t.ID r.todos habs]

/-- Witness of C11: the second of three todos replaced, and an identity that
is not stored. -/
theorem store_update_replaces_in_place_witness :
    (∃ (i : Nat) (old : Todo),
        filterScenario.todos[i]? = some old ∧ old.ID = 2 ∧
        (∀ (j : Nat) (x : Todo), j < i → filterScenario.todos[j]? = some x → x.ID ≠ 2) ∧
        Update filterScenario ⟨2, "feed cat", true, 3, "nobody", 8, 9⟩ =
          ({ filterScenario with
              todos := filterScenario.todos.set i ⟨2, "feed cat", true, 3, "nobody", 8, 9⟩ },
            .ok ⟨2, "feed cat", true, 3, "nobody", 8, 9⟩) ∧
        (Update filterScenario ⟨2, "feed cat", true, 3, "nobody", 8, 9⟩).1.todos.length =
          filterScenario.todos.length ∧
        (Update filterScenario ⟨2, "feed cat", true, 3, "nobody", 8, 9⟩).1.todos[i]? =
          some ⟨2, "feed cat", true, 3, "nobody", 8, 9⟩ ∧
        (∀ j, j ≠ i → (Update filterScenario ⟨2, "feed cat", true, 3, "nobody", 8, 9⟩).1.todos[j]? =
          filterScenario.todos[j]?) ∧
        (Update filterScenario ⟨2, "feed cat", true, 3, "nobody", 8, 9⟩).1.users =
          filterScenario.users ∧
        (Update filterScenario ⟨2, "feed cat", true, 3, "nobody", 8, 9⟩).1.nextID =
          filterScenario.nextID) ∧
    Update filterScenario ⟨7, "feed cat", true, 3, "nobody", 8, 9⟩ =
      (filterScenario, .error Err.ErrTodoNotFound) :=
  ⟨(store_update_replaces_in_place filterScenario ⟨2, "feed cat", true, 3, "nobody", 8, 9⟩).1
      ⟨⟨2, "walk dog", false, 2, "Jane Smith", 2, 2⟩, by decide, rfl⟩,
   (store_update_replaces_in_place filterScenario ⟨7, "feed cat", true, 3, "nobody", 8, 9⟩).2
      (by decide)⟩

/-- C12: when some stored record has identity `id`, `Delete(id)` succeeds and
the collection afterwards is the previous one without the record at the first
index of that identity: the records before it keep their index, the records
after it move down by one, the length drops by exactly one, and the users and
the counter are as before.  When no stored record has identity `id` it fails
with `ErrTodoNotFound` and returns the store it was given. -/
theorem store_delete_removes_first (r : TodoRepository) (id : Int) :
    ((∃ x ∈ r.todos, x.ID = id) →
      ∃ (i : Nat) (old : Todo),
        r.todos[i]? = some old ∧ old.ID = id ∧
        (∀ (j : Nat) (x : Todo), j < i → r.todos[j]? = some x → x.ID ≠ id) ∧
        Delete r id = ({ r with todos := r.todos.eraseIdx i }, none) ∧
        (Delete r id).1.todos.Sublist r.todos ∧
        (∀ j, j < i → (Delete r id).1.todos[j]? = r.todos[j]?) ∧
        (∀ j, i ≤ j → (Delete r id).1.todos[j]? = r.todos[j + 1]?) ∧
        (Delete r id).1.todos.length + 1 = r.todos.length ∧
        (Delete r id).1.users = r.users ∧ (Delete r id).1.nextID = r.nextID) ∧
    ((∀ x ∈ r.todos, x.ID ≠ id) → Delete r id = (r, some Err.ErrTodoNotFound)) := by
  constructor
  · intro hex
    obtain ⟨i, hi⟩ := indexOfID_of_exists id r.todos hex
    obtain ⟨old, hold, hoid, _⟩ := indexOfID_spec id r.todos i hi
    have hlt := indexOfID_lt_length id r.todos i hi
    have hD : Delete r id = ({ r with todos := r.todos.eraseIdx i }, none) := by
      simp [Delete, hi, List.eraseIdx_eq_take_drop_succ]
    refine ⟨i, old, hold, hoid, indexOfID_first id r.todos i hi, hD, ?_, ?_, ?_, ?_, ?_, ?_⟩
    · rw [hD]; exact List.eraseIdx_sublist _ _
    · intro j hj
      rw [hD]; exact List.getElem?_eraseIdx_of_lt _ _ _ hj
    · intro j hj
      rw [hD]; exact List.getElem?_eraseIdx_of_ge _ _ _ hj
    · rw [hD]
      simp only [List.length_eraseIdx, if_pos hlt]
      omega
    · simp [hD]
    · simp [hD]
  · intro habs
    simp [Delete, indexOfID_absent id r.todos habs]

/-- Witness of C12: the second of three todos deleted, and an identity that is
not stored. -/
theorem store_delete_removes_first_witness :
    (Delete filterScenario 2).1.todos =
      [⟨1, "buy milk", false, 1, "John Doe", 1, 1⟩, ⟨3, "pay rent", true, 1, "John Doe", 3, 3⟩] ∧
    (Delete filterScenario 2).1.todos.length + 1 = filterScenario.todos.length ∧
    Delete filterScenario 7 = (filterScenario, some Err.ErrTodoNotFound) :=
  ⟨by decide,
   by
    obtain ⟨_, _, _, _, _, _, _, _, _, hlen, _, _⟩ :=
      (store_delete_removes_first filterScenario 2).1
        ⟨⟨2, "walk dog", false, 2, "Jane Smith", 2, 2⟩, by decide, rfl⟩
    exact hlen,
   (store_delete_removes_first filterScenario 7).2 (by decide)⟩

/-! ## Rule engine: what a call stores -/

theorem findLoop_ok (id : Int) (t : Todo) : ∀ l : List Todo, findLoop l id = .ok t →
    t ∈ l ∧ t.ID = id := by
  intro l
  induction l with
  | nil => intro h; simp [findLoop] at h
  | cons x rest ih =>
    intro h
    by_cases hx : x.ID = id
    · simp only [findLoop, if_pos hx, Except.ok.injEq] at h
      subst h
      exact ⟨List.mem_cons_self _ _, hx⟩
    · simp only [findLoop, if_neg hx] at h
      exact ⟨List.mem_cons_of_mem _ (ih h).1, (ih h).2⟩

theorem Update_todos (r : TodoRepository) (todo : Todo) :
    ∀ t ∈ (Update r todo).1.todos, t ∈ r.todos ∨ t = todo := by
  intro t ht
  unfold Update at ht
  cases hi : indexOfID r.todos todo.ID with
  | none => simp only [hi] at ht; exact Or.inl ht
  | some i => simp only [hi] at ht; exact List.mem_or_eq_of_mem_set ht

theorem Delete_todos (r : TodoRepository) (id : Int) :
    ∀ t ∈ (Delete r id).1.todos, t ∈ r.todos := by
  intro t ht
  unfold Delete at ht
  cases hi : indexOfID r.todos id with
  | none => simp only [hi] at ht; exact ht
  | some i => simp only [hi] at ht; exact (take_drop_sublist r.todos i).subset ht

/-- The todos after a rule-engine call: each is a todo of the store before the
call, or the todo a successful `CreateTodo` built, or the stored todo with the
fields a `ToggleTodo` or an `UpdateTodo` overwrites. -/
theorem applyServiceOp_todos (r : TodoRepository) (op : ServiceOp) :
    ∀ t ∈ (applyServiceOp r op).todos,
      t ∈ r.todos ∨
      (∃ req now user, op = .createTodo req now ∧ validateTodoRequest req = none ∧
        GetUserByID r req.UserID = .ok user ∧
        t = ⟨r.nextID, strings.TrimSpace req.Text, req.Completed, req.UserID, user.Name,
              now, now⟩) ∨
      (∃ id now old, op = .toggleTodo id now ∧ old ∈ r.todos ∧ old.ID = id ∧
        t = ⟨old.ID, old.Text, !old.Completed, old.UserID, old.CreatedBy, old.CreatedAt,
              now⟩) ∨
      (∃ id req now old, op = .updateTodo id req now ∧ validateTodoRequest req = none ∧
        old ∈ r.todos ∧ old.ID = id ∧
        t = ⟨old.ID, strings.TrimSpace req.Text, req.Completed, old.UserID, old.CreatedBy,
              old.CreatedAt, now⟩) := by
  intro t ht
  cases op with
  | getAllTodos => exact Or.inl ht
  | getTodosByUser _ => exact Or.inl ht
  | getTodoByID _ => exact Or.inl ht
  | createTodo req now =>
    simp only [applyServiceOp, CreateTodo] at ht
    cases hv : validateTodoRequest req with
    | some _ => simp only [hv] at ht; exact Or.inl ht
    | none =>
      cases hu : GetUserByID r req.UserID with
      | error _ => simp only [hv, hu] at ht; exact Or.inl ht
      | ok user =>
        simp only [hv, hu, Create, List.mem_append, List.mem_singleton] at ht
        rcases ht with ht | ht
        · exact Or.inl ht
        · exact Or.inr (Or.inl ⟨req, now, user, rfl, hv, hu, ht⟩)
  | deleteTodo id =>
    simp only [applyServiceOp, DeleteTodo] at ht
    split at ht
    · exact Or.inl ht
    · cases hf : FindByID r id with
      | error _ => simp only [hf] at ht; exact Or.inl ht
      | ok _ => simp only [hf] at ht; exact Or.inl (Delete_todos r id t ht)
  | toggleTodo id now =>
    simp only [applyServiceOp, ToggleTodo] at ht
    split at ht
    · exact Or.inl ht
    · cases hf : FindByID r id with
      | error _ => simp only [hf] at ht; exact Or.inl ht
      | ok old =>
        simp only [hf] at ht
        obtain ⟨hmem, hid⟩ := findLoop_ok id old r.todos hf
        rcases Update_todos r _ t ht with h | h
        · exact Or.inl h
        · exact Or.inr (Or.inr (Or.inl ⟨id, now, old, rfl, hmem, hid, h⟩))
  | updateTodo id req now =>
    simp only [applyServiceOp, UpdateTodo] at ht
    split at ht
    · exact Or.inl ht
    · cases hv : validateTodoRequest req with
      | some _ => simp only [hv] at ht; exact Or.inl ht
      | none =>
        cases hf : FindByID r id with
        | error _ => simp only [hv, hf] at ht; exact Or.inl ht
        | ok old =>
          simp only [hv, hf] at ht
          obtain ⟨hmem, hid⟩ := findLoop_ok id old r.todos hf
          rcases Update_todos r _ t ht with h | h
          · exact Or.inl h
          · exact Or.inr (Or.inr (Or.inr ⟨id, req, now, old, rfl, hv, hmem, hid, h⟩))

theorem Update_users (r : TodoRepository) (todo : Todo) : (Update r todo).1.users = r.users := by
  unfold Update
  cases indexOfID r.todos todo.ID <;> rfl

theorem Delete_users (r : TodoRepository) (id : Int) : (Delete r id).1.users = r.users := by
  unfold Delete
  cases indexOfID r.todos id <;> rfl

theorem applyServiceOp_users (r : TodoRepository) (op : ServiceOp) :
    (applyServiceOp r op).users = r.users := by
  cases op with
  | getAllTodos => rfl
  | getTodosByUser _ => rfl
  | getTodoByID _ => rfl
  | createTodo req now =>
    simp only [applyServiceOp, CreateTodo]
    cases validateTodoRequest req with
    | some _ => rfl
    | none =>
      cases GetUserByID r req.UserID with
      | error _ => rfl
      | ok user => rfl
  | deleteTodo id =>
    simp only [applyServiceOp, DeleteTodo]
    split
    · rfl
    · cases FindByID r id with
      | error _ => rfl
      | ok _ => exact Delete_users r id
  | toggleTodo id now =>
    simp only [applyServiceOp, ToggleTodo]
    split
    · rfl
    · cases FindByID r id with
      | error _ => rfl
      | ok _ => exact Update_users r _
  | updateTodo id req now =>
    simp only [applyServiceOp, UpdateTodo]
    split
    · rfl
    · cases validateTodoRequest req with
      | some _ => rfl
      | none =>
        cases FindByID r id with
        | error _ => rfl
        | ok _ => exact Update_users r _

/-! ## Trimming is idempotent -/

theorem dropWhile_fixed {α : Type} (p : α → Bool) (l : List α)
    (h : ∀ x, l.head? = some x → p x = false) : l.dropWhile p = l := by
  cases l with
  | nil => rfl
  | cons a rest =>
    have ha : p a = false := h a rfl
    simp [List.dropWhile_cons, ha]

theorem head_dropWhile_false {α : Type} (p : α → Bool) (l : List α) :
    ∀ x, (l.dropWhile p).head? = some x → p x = false := by
  intro x hx
  have h := List.head?_dropWhile_not p l
  rw [hx] at h
  exact h

theorem trimRight_initial_segment (m : List Char) :
    m = strings.trimRight m ++ (m.reverse.takeWhile strings.isSpace).reverse := by
  have h := List.takeWhile_append_dropWhile strings.isSpace m.reverse
  have h2 := congrArg List.reverse h
  rw [List.reverse_append, List.reverse_reverse] at h2
  exact h2.symm

theorem trimRight_head (m : List Char) (x : Char)
    (h : (strings.trimRight m).head? = some x) : m.head? = some x := by
  rw [trimRight_initial_segment m, List.head?_append, h]
  rfl

theorem trim_fixed (l : List Char) :
    strings.trimRight (strings.trimLeft (strings.trimRight (strings.trimLeft l))) =
      strings.trimRight (strings.trimLeft l) := by
  have hleft : strings.trimLeft (strings.trimRight (strings.trimLeft l)) =
      strings.trimRight (strings.trimLeft l) := by
    unfold strings.trimLeft
    apply dropWhile_fixed
    intro x hx
    exact head_dropWhile_false strings.isSpace l x (trimRight_head _ x hx)
  rw [hleft]
  unfold strings.trimRight
  rw [List.reverse_reverse]
  congr 1
  apply dropWhile_fixed
  exact head_dropWhile_false strings.isSpace _

theorem TrimSpace_idempotent (s : String) :
    strings.TrimSpace (strings.TrimSpace s) = strings.TrimSpace s := by
  unfold strings.TrimSpace
  exact congrArg String.mk (trim_fixed s.data)

theorem validate_text (req : dto.CreateTodoRequest) (h : validateTodoRequest req = none) :
    strings.TrimSpace req.Text ≠ "" ∧ 0 < req.UserID := by
  unfold validateTodoRequest at h
  by_cases h1 : strings.TrimSpace req.Text = ""
  · simp [h1] at h
  · by_cases h2 : req.UserID ≤ 0
    · simp [h1, h2] at h
    · exact ⟨h1, not_le.mp h2⟩

/-! ## Rule engine: invariants of the stored todos -/

theorem TextInv_applyServiceOp (r : TodoRepository) (op : ServiceOp) (h : TextInv r) :
    TextInv (applyServiceOp r op) := by
  intro t ht
  rcases applyServiceOp_todos r op t ht with hold | ⟨req, now, user, _, hv, _, rfl⟩ |
    ⟨id, now, old, _, hmem, _, rfl⟩ | ⟨id, req, now, old, _, hv, _, _, rfl⟩
  · exact h t hold
  · exact ⟨(validate_text req hv).1, TrimSpace_idempotent req.Text⟩
  · exact h old hmem
  · exact ⟨(validate_text req hv).1, TrimSpace_idempotent req.Text⟩

theorem TextInv_runService (ops : List ServiceOp) : ∀ r : TodoRepository, TextInv r →
    TextInv (runService r ops) := by
  induction ops with
  | nil => intro r h; exact h
  | cons op ops ih => intro r h; exact ih _ (TextInv_applyServiceOp r op h)

/-- C13: in every store reached from `NewTodoRepository` through rule-engine
calls, every stored text is non-empty and equal to its own trimmed form, so no
stored text is empty or made of white space only. -/
theorem stored_text_never_blank (now : Time) (ops : List ServiceOp) :
    ∀ t ∈ (runService (NewTodoRepository now) ops).todos,
      t.Text ≠ "" ∧ strings.TrimSpace t.Text = t.Text ∧ strings.TrimSpace t.Text ≠ "" := by
  intro t ht
  have h := TextInv_runService ops (NewTodoRepository now)
    (by intro t ht; simp [NewTodoRepository] at ht) t ht
  exact ⟨h.1, h.2, by rw [h.2]; exact h.1⟩

/-- Witness of C13: the text stored by `CreateTodo("  buy milk  ")` and then
overwritten by `UpdateTodo(" walk dog\t")`. -/
theorem stored_text_never_blank_witness :
    (⟨1, "walk dog", true, 1, "John Doe", 1, 2⟩ : Todo).Text ≠ "" ∧
    strings.TrimSpace (⟨1, "walk dog", true, 1, "John Doe", 1, 2⟩ : Todo).Text =
      (⟨1, "walk dog", true, 1, "John Doe", 1, 2⟩ : Todo).Text ∧
    strings.TrimSpace (⟨1, "walk dog", true, 1, "John Doe", 1, 2⟩ : Todo).Text ≠ "" :=
  stored_text_never_blank 0
    [.createTodo ⟨"  buy milk  ", 1, false⟩ 1, .updateTodo 1 ⟨" walk dog\t", 2, true⟩ 2]
    ⟨1, "walk dog", true, 1, "John Doe", 1, 2⟩ (by decide)

theorem GetUserByID_users (r r1 : TodoRepository) (h : r1.users = r.users) (userID : Int) :
    GetUserByID r1 userID = GetUserByID r userID := by
  simp [GetUserByID, h]

theorem GetUserByID_ok_mem (r : TodoRepository) (userID : Int) (user : User)
    (h : GetUserByID r userID = .ok user) : userID ∈ userIDs r := by
  by_contra hn
  rw [GetUserByID_of_not_mem r userID hn] at h
  cases h

theorem OwnerInv_applyServiceOp (r : TodoRepository) (op : ServiceOp) (h : OwnerInv r) :
    OwnerInv (applyServiceOp r op) := by
  have hu := applyServiceOp_users r op
  have hids : userIDs (applyServiceOp r op) = userIDs r := by simp [userIDs, hu]
  intro t ht
  rw [hids, GetUserByID_users r _ hu]
  rcases applyServiceOp_todos r op t ht with hold | ⟨req, now, user, _, _, hget, rfl⟩ |
    ⟨id, now, old, _, hmem, _, rfl⟩ | ⟨id, req, now, old, _, _, hmem, _, rfl⟩
  · exact h t hold
  · exact ⟨GetUserByID_ok_mem r req.UserID user hget, user, hget, rfl⟩
  · exact h old hmem
  · exact h old hmem

theorem OwnerInv_runService (ops : List ServiceOp) : ∀ r : TodoRepository, OwnerInv r →
    OwnerInv (runService r ops) := by
  induction ops with
  | nil => intro r h; exact h
  | cons op ops ih => intro r h; exact ih _ (OwnerInv_applyServiceOp r op h)

/-- C14: in every store reached from `NewTodoRepository` through rule-engine
calls, the owning-user identity of every stored todo is a key of the user map
and the creator-name of the todo is the display name of that user. -/
theorem stored_owner_exists (now : Time) (ops : List ServiceOp) :
    ∀ t ∈ (runService (NewTodoRepository now) ops).todos,
      t.UserID ∈ userIDs (runService (NewTodoRepository now) ops) ∧
      ∃ user, GetUserByID (runService (NewTodoRepository now) ops) t.UserID = .ok user ∧
        t.CreatedBy = user.Name :=
  OwnerInv_runService ops (NewTodoRepository now)
    (by intro t ht; simp [NewTodoRepository] at ht)

/-- Witness of C14: a todo of user 1 after an update whose request names
user 2. -/
theorem stored_owner_exists_witness :
    (1 : Int) ∈ userIDs (runService (NewTodoRepository 0)
      [.createTodo ⟨"buy milk", 1, false⟩ 1, .updateTodo 1 ⟨"walk dog", 2, true⟩ 2]) ∧
    ∃ user, GetUserByID (runService (NewTodoRepository 0)
      [.createTodo ⟨"buy milk", 1, false⟩ 1, .updateTodo 1 ⟨"walk dog", 2, true⟩ 2]) 1 =
        .ok user ∧ "John Doe" = user.Name :=
  stored_owner_exists 0
    [.createTodo ⟨"buy milk", 1, false⟩ 1, .updateTodo 1 ⟨"walk dog", 2, true⟩ 2]
    ⟨1, "walk dog", true, 1, "John Doe", 1, 2⟩ (by decide)

/-! ## Rule engine: timestamps -/

theorem TimeInv_applyServiceOp (r : TodoRepository) (op : ServiceOp) (c n : Time)
    (h : TimeInv r c) (hcn : c ≤ n) (hop : ∀ m, opClock op = some m → m = n) :
    TimeInv (applyServiceOp r op) n := by
  intro t ht
  rcases applyServiceOp_todos r op t ht with hold | ⟨req, now, user, hopeq, _, _, rfl⟩ |
    ⟨id, now, old, hopeq, hmem, _, rfl⟩ | ⟨id, req, now, old, hopeq, _, hmem, _, rfl⟩
  · have := h t hold
    exact ⟨this.1, le_trans this.2 hcn⟩
  · have hn : now = n := hop now (by rw [hopeq]; rfl)
    subst hn
    exact ⟨le_refl _, le_refl _⟩
  · have hn : now = n := hop now (by rw [hopeq]; rfl)
    subst hn
    have := h old hmem
    exact ⟨le_trans this.1 (le_trans this.2 hcn), le_refl _⟩
  · have hn : now = n := hop now (by rw [hopeq]; rfl)
    subst hn
    have := h old hmem
    exact ⟨le_trans this.1 (le_trans this.2 hcn), le_refl _⟩

theorem TimeInv_runService (ops : List ServiceOp) : ∀ (r : TodoRepository) (c : Time),
    TimeInv r c → (∀ m ∈ clockReadings ops, c ≤ m) →
    (clockReadings ops).Pairwise (· ≤ ·) → ∃ c1, TimeInv (runService r ops) c1 := by
  induction ops with
  | nil => intro r c h _ _; exact ⟨c, h⟩
  | cons op ops ih =>
    intro r c h hge hsorted
    cases hc : opClock op with
    | none =>
      have hread : clockReadings (op :: ops) = clockReadings ops := by
        simp [clockReadings, List.filterMap_cons_none hc]
      rw [hread] at hge hsorted
      exact ih _ c (TimeInv_applyServiceOp r op c c h (le_refl _)
        (by intro m hm; rw [hc] at hm; cases hm)) hge hsorted
    | some n =>
      have hread : clockReadings (op :: ops) = n :: clockReadings ops := by
        simp [clockReadings, List.filterMap_cons_some hc]
      rw [hread] at hge hsorted
      rw [List.pairwise_cons] at hsorted
      exact ih _ n (TimeInv_applyServiceOp r op c n h (hge n (List.mem_cons_self _ _))
        (by intro m hm; rw [hc] at hm; exact (Option.some.inj hm).symm)) hsorted.1 hsorted.2

theorem Update_ok_stored (r r1 : TodoRepository) (todo t : Todo)
    (h : Update r todo = (r1, .ok t)) : t = todo ∧ t ∈ r1.todos := by
  unfold Update at h
  cases hi : indexOfID r.todos todo.ID with
  | none => simp [hi] at h
  | some i =>
    simp only [hi, Prod.mk.injEq, Except.ok.injEq] at h
    obtain ⟨hr, ht⟩ := h
    subst hr ht
    have hlt := indexOfID_lt_length todo.ID r.todos i hi
    exact ⟨rfl, List.mem_set _ _ hlt _⟩

theorem CreateTodo_ok_clock (r r1 : TodoRepository) (req : dto.CreateTodoRequest) (now : Time)
    (t : Todo) (h : CreateTodo r req now = (r1, .ok t)) :
    t.UpdatedAt = now ∧ t.CreatedAt = now ∧ t ∈ r1.todos := by
  unfold CreateTodo at h
  cases hv : validateTodoRequest req with
  | some _ => simp [hv] at h
  | none =>
    cases hu : GetUserByID r req.UserID with
    | error _ => simp [hv, hu] at h
    | ok user =>
      simp only [hv, hu, Create, Prod.mk.injEq, Except.ok.injEq] at h
      obtain ⟨hr, ht⟩ := h
      subst hr ht
      simp

theorem ToggleTodo_ok_clock (r r1 : TodoRepository) (id : Int) (now : Time) (t : Todo)
    (h : ToggleTodo r id now = (r1, .ok t)) : t.UpdatedAt = now ∧ t ∈ r1.todos := by
  unfold ToggleTodo at h
  by_cases hid : id ≤ 0
  · simp [hid] at h
  · simp only [if_neg hid] at h
    cases hf : FindByID r id with
    | error _ => simp [hf] at h
    | ok old =>
      simp only [hf] at h
      obtain ⟨ht, hmem⟩ := Update_ok_stored r r1 _ t h
      exact ⟨by rw [ht], hmem⟩

theorem UpdateTodo_ok_clock (r r1 : TodoRepository) (id : Int) (req : dto.CreateTodoRequest)
    (now : Time) (t : Todo) (h : UpdateTodo r id req now = (r1, .ok t)) :
    t.UpdatedAt = now ∧ t ∈ r1.todos := by
  unfold UpdateTodo at h
  by_cases hid : id ≤ 0
  · simp [hid] at h
  · simp only [if_neg hid] at h
    cases hv : validateTodoRequest req with
    | some _ => simp [hv] at h
    | none =>
      cases hf : FindByID r id with
      | error _ => simp [hv, hf] at h
      | ok old =>
        simp only [hv, hf] at h
        obtain ⟨ht, hmem⟩ := Update_ok_stored r r1 _ t h
        exact ⟨by rw [ht], hmem⟩

theorem CreatedAt_kept (r : TodoRepository) (op : ServiceOp) (h : IdInv r) :
    ∀ t ∈ r.todos, ∀ t1 ∈ (applyServiceOp r op).todos, t1.ID = t.ID →
      t1.CreatedAt = t.CreatedAt := by
  have hinj := List.inj_on_of_nodup_map (IdInv_nodup h)
  intro t ht t1 ht1 hid
  rcases applyServiceOp_todos r op t1 ht1 with hold | ⟨req, now, user, _, _, _, rfl⟩ |
    ⟨id, now, old, _, hmem, _, rfl⟩ | ⟨id, req, now, old, _, _, hmem, _, rfl⟩
  · rw [hinj hold ht hid]
  · exfalso
    have hlt := (h.2.1 t.ID (List.mem_map_of_mem _ ht)).2
    simp only at hid
    omega
  · have : old = t := hinj hmem ht hid
    rw [← this]
  · have : old = t := hinj hmem ht hid
    rw [← this]

/-- C15: in a store reached from the fresh store through rule-engine calls
whose clock readings are non-decreasing in call order, every stored todo has
updated-at `>=` created-at; a successful `CreateTodo`, `ToggleTodo` or
`UpdateTodo` returns and stores a todo whose updated-at is the clock reading
of the call; and no further call changes the created-at of a stored todo. -/
theorem timestamps_monotone (now0 : Time) (ops : List ServiceOp)
    (hclock : (clockReadings ops).Pairwise (· ≤ ·)) :
    (∀ t ∈ (runService (NewTodoRepository now0) ops).todos, t.CreatedAt ≤ t.UpdatedAt) ∧
    (∀ (r1 : TodoRepository) (req : dto.CreateTodoRequest) (now : Time) (t : Todo),
      CreateTodo (runService (NewTodoRepository now0) ops) req now = (r1, .ok t) →
        t.UpdatedAt = now ∧ t.CreatedAt = now ∧ t ∈ r1.todos) ∧
    (∀ (r1 : TodoRepository) (id : Int) (now : Time) (t : Todo),
      ToggleTodo (runService (NewTodoRepository now0) ops) id now = (r1, .ok t) →
        t.UpdatedAt = now ∧ t ∈ r1.todos) ∧
    (∀ (r1 : TodoRepository) (id : Int) (req : dto.CreateTodoRequest) (now : Time) (t : Todo),
      UpdateTodo (runService (NewTodoRepository now0) ops) id req now = (r1, .ok t) →
        t.UpdatedAt = now ∧ t ∈ r1.todos) ∧
    (∀ (op : ServiceOp), ∀ t ∈ (runService (NewTodoRepository now0) ops).todos,
      ∀ t1 ∈ (applyServiceOp (runService (NewTodoRepository now0) ops) op).todos,
        t1.ID = t.ID → t1.CreatedAt = t.CreatedAt) := by
  refine ⟨?_, ?_, ?_, ?_, ?_⟩
  · obtain ⟨c1, hc1⟩ := TimeInv_runService ops (NewTodoRepository now0) 0
      (by intro t ht; simp [NewTodoRepository] at ht) (fun m _ => Nat.zero_le m) hclock
    exact fun t ht => (hc1 t ht).1
  · intro r1 req now t h
    exact CreateTodo_ok_clock _ r1 req now t h
  · intro r1 id now t h
    exact ToggleTodo_ok_clock _ r1 id now t h
  · intro r1 id req now t h
    exact UpdateTodo_ok_clock _ r1 id req now t h
  · intro op
    exact CreatedAt_kept _ op (IdInv_runService ops _ (IdInv_new now0))

/-- Witness of C15: a create at instant 4, a toggle at 4 and an update at 9
leave todo 1 with created-at 4 and updated-at 9. -/
theorem timestamps_monotone_witness :
    (⟨1, "walk dog", false, 1, "John Doe", 4, 9⟩ : Todo).CreatedAt ≤
      (⟨1, "walk dog", false, 1, "John Doe", 4, 9⟩ : Todo).UpdatedAt :=
  (timestamps_monotone 0
    [.createTodo ⟨"buy milk", 1, false⟩ 4, .toggleTodo 1 4,
     .updateTodo 1 ⟨"walk dog", 1, false⟩ 9] (by decide)).1
    ⟨1, "walk dog", false, 1, "John Doe", 4, 9⟩ (by decide)

/-! ## Rule engine: a failed call leaves the store as it is -/

theorem Update_error (r : TodoRepository) (todo : Todo) (e : Err)
    (h : (Update r todo).2 = .error e) : (Update r todo).1 = r := by
  unfold Update at h ⊢
  cases hi : indexOfID r.todos todo.ID with
  | none => rfl
  | some i => simp [hi] at h

theorem Delete_error (r : TodoRepository) (id : Int) (e : Err)
    (h : (Delete r id).2 = some e) : (Delete r id).1 = r := by
  unfold Delete at h ⊢
  cases hi : indexOfID r.todos id with
  | none => rfl
  | some i => simp [hi] at h

/-- C16: whatever the store and the input, when `CreateTodo`, `DeleteTodo`,
`ToggleTodo` or `UpdateTodo` returns an error, the store it leaves (todos,
users and counter) is the store it was given; `GetTodosByUser` and
`GetTodoByID` leave the store as it is whatever they return. -/
theorem error_leaves_store_unchanged (r : TodoRepository) :
    (∀ req now e, (CreateTodo r req now).2 = .error e → (CreateTodo r req now).1 = r) ∧
    (∀ id e, (DeleteTodo r id).2 = some e → (DeleteTodo r id).1 = r) ∧
    (∀ id now e, (ToggleTodo r id now).2 = .error e → (ToggleTodo r id now).1 = r) ∧
    (∀ id req now e, (UpdateTodo r id req now).2 = .error e →
      (UpdateTodo r id req now).1 = r) ∧
    (∀ userID, applyServiceOp r (.getTodosByUser userID) = r) ∧
    (∀ id, applyServiceOp r (.getTodoByID id) = r) := by
  refine ⟨?_, ?_, ?_, ?_, fun _ => rfl, fun _ => rfl⟩
  · intro req now e h
    unfold CreateTodo at h ⊢
    cases hv : validateTodoRequest req with
    | some _ => rfl
    | none =>
      cases hu : GetUserByID r req.UserID with
      | error _ => rfl
      | ok user => simp [hv, hu, Create] at h
  · intro id e h
    unfold DeleteTodo at h ⊢
    by_cases hid : id ≤ 0
    · simp [hid]
    · simp only [if_neg hid] at h ⊢
      cases hf : FindByID r id with
      | error _ => rfl
      | ok _ =>
        simp only [hf] at h ⊢
        exact Delete_error r id e h
  · intro id now e h
    unfold ToggleTodo at h ⊢
    by_cases hid : id ≤ 0
    · simp [hid]
    · simp only [if_neg hid] at h ⊢
      cases hf : FindByID r id with
      | error _ => rfl
      | ok _ =>
        simp only [hf] at h ⊢
        exact Update_error r _ e h
  · intro id req now e h
    unfold UpdateTodo at h ⊢
    by_cases hid : id ≤ 0
    · simp [hid]
    · simp only [if_neg hid] at h ⊢
      cases hv : validateTodoRequest req with
      | some _ => rfl
      | none =>
        cases hf : FindByID r id with
        | error _ => rfl
        | ok _ =>
          simp only [hv, hf] at h ⊢
          exact Update_error r _ e h

/-- Witness of C16: a create for a missing user, and a delete, a toggle and an
update of a missing todo, on a store with three todos. -/
theorem error_leaves_store_unchanged_witness :
    (CreateTodo filterScenario ⟨"buy milk", 999, false⟩ 5).1 = filterScenario ∧
    (DeleteTodo filterScenario 7).1 = filterScenario ∧
    (ToggleTodo filterScenario 7 5).1 = filterScenario ∧
    (UpdateTodo filterScenario 7 ⟨"buy milk", 1, false⟩ 5).1 = filterScenario :=
  ⟨(error_leaves_store_unchanged filterScenario).1 ⟨"buy milk", 999, false⟩ 5
      Err.ErrUserNotFound (by decide),
   (error_leaves_store_unchanged filterScenario).2.1 7 Err.ErrTodoNotFound (by decide),
   (error_leaves_store_unchanged filterScenario).2.2.1 7 5 Err.ErrTodoNotFound (by decide),
   (error_leaves_store_unchanged filterScenario).2.2.2.1 7 ⟨"buy milk", 1, false⟩ 5
      Err.ErrTodoNotFound (by decide)⟩

/-! ## A deleted identity does not come back -/

theorem applyServiceOp_preserves (P : TodoRepository → Prop)
    (hC : ∀ r todo, P r → P (Create r todo).1)
    (hU : ∀ r todo, P r → P (Update r todo).1)
    (hD : ∀ r id, P r → P (Delete r id).1)
    (r : TodoRepository) (op : ServiceOp) (h : P r) : P (applyServiceOp r op) := by
  cases op with
  | getAllTodos => exact h
  | getTodosByUser _ => exact h
  | getTodoByID _ => exact h
  | createTodo req now =>
    simp only [applyServiceOp, CreateTodo]
    cases validateTodoRequest req with
    | some _ => exact h
    | none =>
      cases GetUserByID r req.UserID with
      | error _ => exact h
      | ok user => exact hC r _ h
  | deleteTodo id =>
    simp only [applyServiceOp, DeleteTodo]
    split
    · exact h
    · cases FindByID r id with
      | error _ => exact h
      | ok _ => exact hD r id h
  | toggleTodo id now =>
    simp only [applyServiceOp, ToggleTodo]
    split
    · exact h
    · cases FindByID r id with
      | error _ => exact h
      | ok _ => exact hU r _ h
  | updateTodo id req now =>
    simp only [applyServiceOp, UpdateTodo]
    split
    · exact h
    · cases validateTodoRequest req with
      | some _ => exact h
      | none =>
        cases FindByID r id with
        | error _ => exact h
        | ok _ => exact hU r _ h

theorem applyAnyOp_preserves (P : TodoRepository → Prop)
    (hC : ∀ r todo, P r → P (Create r todo).1)
    (hU : ∀ r todo, P r → P (Update r todo).1)
    (hD : ∀ r id, P r → P (Delete r id).1)
    (r : TodoRepository) (op : AnyOp) (h : P r) : P (applyAnyOp r op) := by
  cases op with
  | store op =>
    cases op with
    | create todo => exact hC r todo h
    | update todo => exact hU r todo h
    | delete id => exact hD r id h
  | service op => exact applyServiceOp_preserves P hC hU hD r op h

theorem runAnyOps_preserves (P : TodoRepository → Prop)
    (hC : ∀ r todo, P r → P (Create r todo).1)
    (hU : ∀ r todo, P r → P (Update r todo).1)
    (hD : ∀ r id, P r → P (Delete r id).1)
    (ops : List AnyOp) : ∀ r : TodoRepository, P r → P (runAnyOps r ops) := by
  induction ops with
  | nil => intro r h; exact h
  | cons op ops ih => intro r h; exact ih _ (applyAnyOp_preserves P hC hU hD r op h)

theorem Gone_Create (id : Int) (r : TodoRepository) (todo : Todo) (h : Gone r id) :
    Gone (Create r todo).1 id := by
  obtain ⟨hlt, habs⟩ := h
  refine ⟨by simp only [Create]; omega, ?_⟩
  intro t ht
  simp only [Create, List.mem_append, List.mem_singleton] at ht
  rcases ht with ht | rfl
  · exact habs t ht
  · simp only
    omega

theorem Gone_Update (id : Int) (r : TodoRepository) (todo : Todo) (h : Gone r id) :
    Gone (Update r todo).1 id := by
  unfold Update
  cases hi : indexOfID r.todos todo.ID with
  | none => exact h
  | some i =>
    obtain ⟨hlt, habs⟩ := h
    refine ⟨hlt, ?_⟩
    intro t ht
    have hids := indexOfID_set_ids todo r.todos i hi
    have hmem : t.ID ∈ (r.todos.set i todo).map (·.ID) := List.mem_map_of_mem _ ht
    rw [hids, List.mem_map] at hmem
    obtain ⟨x, hx, hxid⟩ := hmem
    rw [← hxid]
    exact habs x hx

theorem Gone_Delete (id : Int) (r : TodoRepository) (id1 : Int) (h : Gone r id) :
    Gone (Delete r id1).1 id := by
  obtain ⟨hlt, habs⟩ := h
  have hn : (Delete r id1).1.nextID = r.nextID := by
    unfold Delete
    cases indexOfID r.todos id1 <;> rfl
  exact ⟨by rw [hn]; exact hlt, fun t ht => habs t (Delete_todos r id1 t ht)⟩

theorem Gone_after_Delete (r : TodoRepository) (id : Int) (hinv : IdInv r)
    (hdel : (Delete r id).2 = none) : Gone (Delete r id).1 id := by
  unfold Delete at hdel ⊢
  cases hi : indexOfID r.todos id with
  | none => simp [hi] at hdel
  | some i =>
    obtain ⟨x, hx, hxid, _⟩ := indexOfID_spec id r.todos i hi
    have hmem : id ∈ ids r := by
      rw [← hxid]
      exact List.mem_map_of_mem _ (List.getElem?_mem hx)
    exact ⟨(hinv.2.1 id hmem).2, delete_removes_id id r.todos i (IdInv_nodup hinv) hi⟩

theorem DeleteTodo_eq_Delete (r : TodoRepository) (id : Int)
    (hdel : (DeleteTodo r id).2 = none) : DeleteTodo r id = Delete r id := by
  unfold DeleteTodo at hdel ⊢
  by_cases hid : id ≤ 0
  · simp [hid] at hdel
  · simp only [if_neg hid] at hdel ⊢
    cases hf : FindByID r id with
    | error _ => simp [hf] at hdel
    | ok _ => rfl

theorem IdInv_runAnyOps (ops : List AnyOp) (r : TodoRepository) (h : IdInv r) :
    IdInv (runAnyOps r ops) :=
  runAnyOps_preserves IdInv IdInv_Create IdInv_Update IdInv_Delete ops r h

theorem Gone_runAnyOps (id : Int) (ops : List AnyOp) (r : TodoRepository) (h : Gone r id) :
    Gone (runAnyOps r ops) id :=
  runAnyOps_preserves (fun r => Gone r id) (Gone_Create id) (Gone_Update id) (Gone_Delete id)
    ops r h

/-- C17: in a store reached from `NewTodoRepository` by any calls of the store
and of the rule engine, once `Delete(id)` or `DeleteTodo(id)` has succeeded,
no store reached by any further sequence of such calls holds a todo with
identity `id`, and `FindByID(id)` fails there with `ErrTodoNotFound`. -/
theorem deleted_identity_never_returns (now : Time) (before later : List AnyOp) (id : Int) :
    ((Delete (runAnyOps (NewTodoRepository now) before) id).2 = none →
      (∀ t ∈ FindAll (runAnyOps (Delete (runAnyOps (NewTodoRepository now) before) id).1 later),
        t.ID ≠ id) ∧
      FindByID (runAnyOps (Delete (runAnyOps (NewTodoRepository now) before) id).1 later) id =
        .error Err.ErrTodoNotFound) ∧
    ((DeleteTodo (runAnyOps (NewTodoRepository now) before) id).2 = none →
      (∀ t ∈ FindAll
          (runAnyOps (DeleteTodo (runAnyOps (NewTodoRepository now) before) id).1 later),
        t.ID ≠ id) ∧
      FindByID (runAnyOps (DeleteTodo (runAnyOps (NewTodoRepository now) before) id).1 later)
        id = .error Err.ErrTodoNotFound) := by
  have hinv := IdInv_runAnyOps before _ (IdInv_new now)
  have key : (Delete (runAnyOps (NewTodoRepository now) before) id).2 = none →
      (∀ t ∈ FindAll (runAnyOps (Delete (runAnyOps (NewTodoRepository now) before) id).1 later),
        t.ID ≠ id) ∧
      FindByID (runAnyOps (Delete (runAnyOps (NewTodoRepository now) before) id).1 later) id =
        .error Err.ErrTodoNotFound := by
    intro hdel
    have hg := Gone_runAnyOps id later _ (Gone_after_Delete _ id hinv hdel)
    exact ⟨hg.2, findLoop_absent id _ hg.2⟩
  refine ⟨key, ?_⟩
  intro hdel
  have heq := DeleteTodo_eq_Delete _ id hdel
  rw [heq] at hdel ⊢
  exact key hdel

/-- Witness of C17: todo 1 is deleted through the rule engine; a create, a
store update that carries identity 1 and a toggle of 1 follow. -/
theorem deleted_identity_never_returns_witness :
    FindByID (runAnyOps (DeleteTodo (runAnyOps (NewTodoRepository 0)
        [.service (.createTodo ⟨"buy milk", 1, false⟩ 1)]) 1).1
      [.service (.createTodo ⟨"walk dog", 2, false⟩ 2),
       .store (.update ⟨1, "buy milk", false, 1, "John Doe", 1, 1⟩),
       .service (.toggleTodo 1 3)]) 1 = .error Err.ErrTodoNotFound :=
  ((deleted_identity_never_returns 0 [.service (.createTodo ⟨"buy milk", 1, false⟩ 1)]
      [.service (.createTodo ⟨"walk dog", 2, false⟩ 2),
       .store (.update ⟨1, "buy milk", false, 1, "John Doe", 1, 1⟩),
       .service (.toggleTodo 1 3)] 1).2 (by decide)).2

/-! ## Rule engine: order of the checks of `UpdateTodo` -/

/-- C20: whatever the store, `UpdateTodo(id, request)` fails with the
invalid-ID error when `id <= 0`, whatever the request; with
`ErrInvalidTodoText` when `id > 0` and the text is empty after trimming; with
`ErrInvalidUserID` when `id > 0`, the text is non-empty after trimming and the
request's user ID is `<= 0`, whether or not the todo exists; and with
`ErrTodoNotFound` when these three checks pass and no stored todo has identity
`id`.  The store is returned as given in all four cases. -/
theorem update_todo_check_order (r : TodoRepository) (id : Int)
    (req : dto.CreateTodoRequest) (now : Time) :
    (id ≤ 0 → UpdateTodo r id req now = (r, .error (Err.adhoc "invalid todo ID"))) ∧
    (0 < id → strings.TrimSpace req.Text = "" →
      UpdateTodo r id req now = (r, .error Err.ErrInvalidTodoText)) ∧
    (0 < id → strings.TrimSpace req.Text ≠ "" → req.UserID ≤ 0 →
      UpdateTodo r id req now = (r, .error Err.ErrInvalidUserID)) ∧
    (0 < id → strings.TrimSpace req.Text ≠ "" → 0 < req.UserID →
      (∀ t ∈ r.todos, t.ID ≠ id) →
      UpdateTodo r id req now = (r, .error Err.ErrTodoNotFound)) := by
  refine ⟨?_, ?_, ?_, ?_⟩
  · intro hid
    simp [UpdateTodo, hid]
  · intro hid htext
    simp [UpdateTodo, not_le.mpr hid, validateTodoRequest, htext]
  · intro hid htext huid
    simp [UpdateTodo, not_le.mpr hid, validateTodoRequest, htext, huid]
  · intro hid htext huid habs
    exact (not_found_when_absent r id hid habs).2.1 req now htext huid

/-- Witness of C20: on a store that holds todo 1, identity 0 with an empty
text, todo 1 with an empty text and user 0, todo 1 with user 0, and the
missing todo 7 with a valid request. -/
theorem update_todo_check_order_witness :
    UpdateTodo filterScenario 0 ⟨"", 0, false⟩ 5 =
      (filterScenario, .error (Err.adhoc "invalid todo ID")) ∧
    UpdateTodo filterScenario 1 ⟨" ", 0, false⟩ 5 =
      (filterScenario, .error Err.ErrInvalidTodoText) ∧
    UpdateTodo filterScenario 1 ⟨"buy milk", 0, false⟩ 5 =
      (filterScenario, .error Err.ErrInvalidUserID) ∧
    UpdateTodo filterScenario 7 ⟨"buy milk", 1, false⟩ 5 =
      (filterScenario, .error Err.ErrTodoNotFound) :=
  ⟨(update_todo_check_order filterScenario 0 ⟨"", 0, false⟩ 5).1 (by decide),
   (update_todo_check_order filterScenario 1 ⟨" ", 0, false⟩ 5).2.1 (by decide) (by decide),
   (update_todo_check_order filterScenario 1 ⟨"buy milk", 0, false⟩ 5).2.2.1
     (by decide) (by decide) (by decide),
   (update_todo_check_order filterScenario 7 ⟨"buy milk", 1, false⟩ 5).2.2.2
     (by decide) (by decide) (by decide) (by decide)⟩

/-! ## Rule engine: `ToggleTodo` is not atomic -/

/-- C19: `ToggleTodo` is `FindByID` followed by `Update`, and with no write in
between it is `ToggleTodoBetween` with the identity.  On the store that holds
todo 1 "buy milk": (a) when another caller's `Update` sets the text of todo 1
to "walk dog" between the two store calls, the toggle succeeds and the stored
todo 1 carries the text "buy milk" again, so that update is lost; (b) when
another caller's `Delete(1)` lands between the two store calls, the toggle
fails with `ErrTodoNotFound` and todo 1 stays deleted. -/
theorem toggle_not_atomic :
    (∀ r id now, ToggleTodoBetween (fun s => s) r id now = ToggleTodo r id now) ∧
    FindByID (Update raceScenario ⟨1, "walk dog", false, 1, "John Doe", 1, 2⟩).1 1 =
      .ok ⟨1, "walk dog", false, 1, "John Doe", 1, 2⟩ ∧
    (ToggleTodoBetween
      (fun s => (Update s ⟨1, "walk dog", false, 1, "John Doe", 1, 2⟩).1) raceScenario 1 3).2 =
      .ok ⟨1, "buy milk", true, 1, "John Doe", 1, 3⟩ ∧
    FindByID (ToggleTodoBetween
      (fun s => (Update s ⟨1, "walk dog", false, 1, "John Doe", 1, 2⟩).1) raceScenario 1 3).1 1 =
      .ok ⟨1, "buy milk", true, 1, "John Doe", 1, 3⟩ ∧
    (Delete raceScenario 1).2 = none ∧
    (ToggleTodoBetween (fun s => (Delete s 1).1) raceScenario 1 3).2 =
      .error Err.ErrTodoNotFound ∧
    FindAll (ToggleTodoBetween (fun s => (Delete s 1).1) raceScenario 1 3).1 = [] := by
  refine ⟨?_, by decide, by decide, by decide, by decide, by decide, by decide⟩
  intro r id now
  unfold ToggleTodoBetween ToggleTodo
  by_cases hid : id ≤ 0
  · simp [hid]
  · simp only [if_neg hid]

/-! ## Concurrent creates -/

theorem stepCreateCall_twice (r : TodoRepository) (req : dto.CreateTodoRequest) (now : Time) :
    stepCreateCall (stepCreateCall r (.start req now)).1 (stepCreateCall r (.start req now)).2 =
      ((CreateTodo r req now).1, .done (CreateTodo r req now).2) := by
  unfold CreateTodo
  cases hv : validateTodoRequest req with
  | some err => simp [stepCreateCall, hv]
  | none =>
    cases hu : GetUserByID r req.UserID with
    | error e => simp [stepCreateCall, hv, hu]
    | ok user => simp [stepCreateCall, hv, hu]

theorem countP_set_getElem? {α : Type} (p : α → Bool) (a b : α) :
    ∀ (l : List α) (i : Nat), l[i]? = some a →
      (l.set i b).countP p + (if p a then 1 else 0) = l.countP p + (if p b then 1 else 0) := by
  intro l
  induction l with
  | nil => intro i h; simp at h
  | cons x rest ih =>
    intro i h
    cases i with
    | zero =>
      simp only [List.getElem?_cons_zero, Option.some.injEq] at h
      subst h
      simp only [List.set_cons_zero, List.countP_cons]
      omega
    | succ j =>
      simp only [List.getElem?_cons_succ] at h
      have := ih j h
      simp only [List.set_cons_succ, List.countP_cons]
      omega

theorem RaceInv_stepThread (users : List (Int × User)) (s : TodoRepository × List CreateCall)
    (i : Nat) (h : RaceInv users s) : RaceInv users (stepThread s i) := by
  unfold stepThread
  cases hget : s.2[i]? with
  | none => exact h
  | some call =>
    obtain ⟨husers, hids, hnext, hcalls⟩ := h
    have hmem : call ∈ s.2 := List.getElem?_mem hget
    rcases hcalls call hmem with ⟨req, now, rfl, hv, user, hu⟩ | ⟨todo, rfl⟩ | ⟨t, rfl, ht⟩
    · -- the lookup step: the store is as before and no call returns
      have hU : GetUserByID s.1 req.UserID = .ok user := by simp [GetUserByID, husers, hu]
      have hcount := countP_set_getElem? CreateCall.isDone (.start req now)
        (.built ⟨0, strings.TrimSpace req.Text, req.Completed, req.UserID, user.Name, now, now⟩)
        s.2 i hget
      simp only [CreateCall.isDone, Bool.false_eq_true, if_false, Nat.add_zero] at hcount
      simp only [stepCreateCall, hv, hU]
      refine ⟨husers, by rw [hcount]; exact hids, by rw [hcount]; exact hnext, ?_⟩
      intro c hc
      rcases List.mem_or_eq_of_mem_set hc with hc | rfl
      · exact hcalls c hc
      · exact Or.inr (Or.inl ⟨_, rfl⟩)
    · -- the create step: one more call has returned and one more todo is stored
      have hcount := countP_set_getElem? CreateCall.isDone (.built todo)
        (.done (Create s.1 todo).2) s.2 i hget
      simp only [CreateCall.isDone, Bool.false_eq_true, if_false, if_true,
        Nat.add_zero] at hcount
      simp only [stepCreateCall]
      refine ⟨husers, ?_, ?_, ?_⟩
      · rw [hcount, List.range_succ, List.map_append]
        simp only [ids, Create, List.map_append, List.map_cons, List.map_nil]
        simp only [ids] at hids
        rw [hids, hnext]
      · rw [hcount]
        simp only [Create, hnext]
        push_cast
        ring
      · intro c hc
        rcases List.mem_or_eq_of_mem_set hc with hc | rfl
        · rcases hcalls c hc with h1 | h2 | ⟨t, rfl, ht⟩
          · exact Or.inl h1
          · exact Or.inr (Or.inl h2)
          · exact Or.inr (Or.inr ⟨t, rfl, by simp [Create, ht]⟩)
        · exact Or.inr (Or.inr ⟨_, rfl, by simp [Create]⟩)
    · -- a call that has returned takes no step
      have hcount := countP_set_getElem? CreateCall.isDone (.done (.ok t))
        (.done (.ok t)) s.2 i hget
      simp only [CreateCall.isDone, if_true, Nat.add_right_cancel_iff] at hcount
      simp only [stepCreateCall]
      refine ⟨husers, by rw [hcount]; exact hids, by rw [hcount]; exact hnext, ?_⟩
      intro c hc
      rcases List.mem_or_eq_of_mem_set hc with hc | rfl
      · exact hcalls c hc
      · exact Or.inr (Or.inr ⟨t, rfl, ht⟩)

theorem RaceInv_runSchedule (users : List (Int × User)) (sched : List Nat) :
    ∀ s : TodoRepository × List CreateCall, RaceInv users s →
      RaceInv users (runSchedule s sched) := by
  induction sched with
  | nil => intro s h; exact h
  | cons i sched ih => intro s h; exact ih _ (RaceInv_stepThread users s i h)

theorem stepThread_length (s : TodoRepository × List CreateCall) (i : Nat) :
    (stepThread s i).2.length = s.2.length := by
  unfold stepThread
  cases s.2[i]? with
  | none => rfl
  | some call => simp

theorem runSchedule_length (sched : List Nat) : ∀ s : TodoRepository × List CreateCall,
    (runSchedule s sched).2.length = s.2.length := by
  induction sched with
  | nil => intro s; rfl
  | cons i sched ih =>
    intro s
    exact (ih (stepThread s i)).trans (stepThread_length s i)

theorem RaceInv_start (now0 : Time) (reqs : List (dto.CreateTodoRequest × Time))
    (hvalid : ∀ q ∈ reqs, strings.TrimSpace q.1.Text ≠ "" ∧ 0 < q.1.UserID ∧
      q.1.UserID ∈ userIDs (NewTodoRepository now0)) :
    RaceInv (SeedUsers now0)
      (NewTodoRepository now0, reqs.map (fun q => CreateCall.start q.1 q.2)) := by
  have hcount : (reqs.map (fun q => CreateCall.start q.1 q.2)).countP CreateCall.isDone = 0 := by
    rw [List.countP_eq_zero]
    intro c hc
    simp only [List.mem_map] at hc
    obtain ⟨q, _, rfl⟩ := hc
    simp [CreateCall.isDone]
  refine ⟨rfl, ?_, ?_, ?_⟩
  · simp only [hcount]
    rfl
  · simp only [hcount]
    rfl
  · intro c hc
    simp only [List.mem_map] at hc
    obtain ⟨q, hq, rfl⟩ := hc
    obtain ⟨htext, hpos, hmem⟩ := hvalid q hq
    obtain ⟨user, hu⟩ := GetUserByID_of_mem (NewTodoRepository now0) q.1.UserID hmem
    refine Or.inl ⟨q.1, q.2, rfl, ?_, ?_⟩
    · simp [validateTodoRequest, htext, not_le.mpr hpos]
    · cases hl : (SeedUsers now0).lookup q.1.UserID with
      | none => simp [GetUserByID, NewTodoRepository, hl] at hu
      | some u => exact ⟨u, rfl⟩

/-- C18: model of concurrency: every store method runs under the lock, so an
interleaving of concurrent `CreateTodo` calls is a schedule of their atomic
steps (the locked `GetUserByID`, then the locked `Create`), and running both
steps of one call in a row is `CreateTodo`.  For `M` valid calls against the
fresh store and every schedule after which all calls have returned, every
call has returned a todo that is stored, the store holds exactly `M` todos
and their identities are `1, ..., M`, pairwise distinct. -/
theorem concurrent_creates_all_stored (now0 : Time)
    (reqs : List (dto.CreateTodoRequest × Time)) (sched : List Nat)
    (hvalid : ∀ q ∈ reqs, strings.TrimSpace q.1.Text ≠ "" ∧ 0 < q.1.UserID ∧
      q.1.UserID ∈ userIDs (NewTodoRepository now0))
    (hdone : ∀ c ∈ (concurrentCreates now0 reqs sched).2, c.isDone = true) :
    (concurrentCreates now0 reqs sched).1.todos.length = reqs.length ∧
    ids (concurrentCreates now0 reqs sched).1 =
      (List.range reqs.length).map (fun (i : Nat) => (i : Int) + 1) ∧
    (ids (concurrentCreates now0 reqs sched).1).Nodup ∧
    (concurrentCreates now0 reqs sched).2.length = reqs.length ∧
    (∀ c ∈ (concurrentCreates now0 reqs sched).2,
      ∃ t, c = .done (.ok t) ∧ t ∈ (concurrentCreates now0 reqs sched).1.todos) ∧
    (∀ r req now,
      stepCreateCall (stepCreateCall r (.start req now)).1 (stepCreateCall r (.start req now)).2 =
        ((CreateTodo r req now).1, .done (CreateTodo r req now).2)) := by
  have hinv : RaceInv (SeedUsers now0) (concurrentCreates now0 reqs sched) :=
    RaceInv_runSchedule (SeedUsers now0) sched _ (RaceInv_start now0 reqs hvalid)
  have hlen : (concurrentCreates now0 reqs sched).2.length = reqs.length := by
    unfold concurrentCreates
    rw [runSchedule_length]
    simp
  obtain ⟨_, hids, _, hcalls⟩ := hinv
  have hcount : (concurrentCreates now0 reqs sched).2.countP CreateCall.isDone = reqs.length := by
    rw [← hlen, List.countP_eq_length]
    exact hdone
  rw [hcount] at hids
  refine ⟨?_, hids, ?_, hlen, ?_, stepCreateCall_twice⟩
  · have := congrArg List.length hids
    simpa [ids] using this
  · rw [hids]
    apply List.Nodup.map _ (List.nodup_range _)
    intro a b hab
    have : (a : Int) = b := by simpa using hab
    exact_mod_cast this
  · intro c hc
    rcases hcalls c hc with ⟨req, now, rfl, _⟩ | ⟨todo, rfl⟩ | h3
    · have := hdone _ hc
      simp [CreateCall.isDone] at this
    · have := hdone _ hc
      simp [CreateCall.isDone] at this
    · exact h3

/-- Witness of C18: three calls; the schedule lets all of them look their user
up before any of them creates, and the creates run in the order 2, 0, 1. -/
theorem concurrent_creates_all_stored_witness :
    ids (concurrentCreates 0
      [(⟨"buy milk", 1, false⟩, 5), (⟨"walk dog", 2, false⟩, 4), (⟨"pay rent", 3, true⟩, 6)]
      [0, 1, 2, 2, 0, 1]).1 = (List.range 3).map (fun (i : Nat) => (i : Int) + 1) ∧
    (concurrentCreates 0
      [(⟨"buy milk", 1, false⟩, 5), (⟨"walk dog", 2, false⟩, 4), (⟨"pay rent", 3, true⟩, 6)]
      [0, 1, 2, 2, 0, 1]).1.todos.map (·.Text) = ["pay rent", "buy milk", "walk dog"] :=
  ⟨(concurrent_creates_all_stored 0
      [(⟨"buy milk", 1, false⟩, 5), (⟨"walk dog", 2, false⟩, 4), (⟨"pay rent", 3, true⟩, 6)]
      [0, 1, 2, 2, 0, 1] (by decide) (by decide)).2.1, by decide⟩

/-! ## Rule engine: `DeleteTodo` against `Delete` -/

theorem findLoop_error (id : Int) (e : Err) : ∀ l : List Todo, findLoop l id = .error e →
    e = Err.ErrTodoNotFound ∧ ∀ t ∈ l, t.ID ≠ id := by
  intro l
  induction l with
  | nil =>
    intro h
    simp only [findLoop, Except.error.injEq] at h
    exact ⟨h.symm, by intro t ht; simp at ht⟩
  | cons x rest ih =>
    intro h
    by_cases hx : x.ID = id
    · simp [findLoop, hx] at h
    · simp only [findLoop, if_neg hx] at h
      obtain ⟨he, habs⟩ := ih h
      refine ⟨he, ?_⟩
      intro t ht
      rcases List.mem_cons.mp ht with rfl | hrest
      · exact hx
      · exact habs t hrest

/-- C22: for every store and every `id > 0`, `DeleteTodo(id)` returns the
result and leaves the store of `Delete(id)`, so the pre-check through
`FindByID` does not change the outcome; for every `id <= 0` it fails with the
invalid-ID error and leaves the store as it is. -/
theorem delete_todo_refines_store_delete (r : TodoRepository) (id : Int) :
    (0 < id → DeleteTodo r id = Delete r id) ∧
    (id ≤ 0 → DeleteTodo r id = (r, some (Err.adhoc "invalid todo ID"))) := by
  constructor
  · intro hpos
    unfold DeleteTodo
    simp only [if_neg (not_le.mpr hpos)]
    cases hf : FindByID r id with
    | ok _ => rfl
    | error e =>
      obtain ⟨he, habs⟩ := findLoop_error id e r.todos hf
      subst he
      simp [Delete, indexOfID_absent id r.todos habs]
  · intro hid
    simp [DeleteTodo, hid]

/-- Witness of C22: a stored todo, a missing todo and the identity 0. -/
theorem delete_todo_refines_store_delete_witness :
    DeleteTodo filterScenario 2 = Delete filterScenario 2 ∧
    DeleteTodo filterScenario 7 = Delete filterScenario 7 ∧
    DeleteTodo filterScenario 0 = (filterScenario, some (Err.adhoc "invalid todo ID")) :=
  ⟨(delete_todo_refines_store_delete filterScenario 2).1 (by decide),
   (delete_todo_refines_store_delete filterScenario 7).1 (by decide),
   (delete_todo_refines_store_delete filterScenario 0).2 (by decide)⟩

/-! ## Users are read-only -/

theorem GetAllUsers_loop (order : List (Int × User)) : ∀ acc : List User,
    order.foldl (fun users entry => users ++ [entry.2]) acc = acc ++ order.map Prod.snd := by
  induction order with
  | nil => intro acc; simp
  | cons e rest ih => intro acc; simp [List.foldl_cons, ih]

theorem applyAnyOp_users (r : TodoRepository) (op : AnyOp) :
    (applyAnyOp r op).users = r.users := by
  cases op with
  | store op =>
    cases op with
    | create todo => rfl
    | update todo => exact Update_users r todo
    | delete id => exact Delete_users r id
  | service op => exact applyServiceOp_users r op

theorem runAnyOps_users (ops : List AnyOp) : ∀ r : TodoRepository,
    (runAnyOps r ops).users = r.users := by
  induction ops with
  | nil => intro r; rfl
  | cons op ops ih => intro r; exact (ih _).trans (applyAnyOp_users r op)

/-- C21: no call of the store or of the rule engine changes the user map.  In
every store reached from `NewTodoRepository` the map is the seed: the keys are
1, 2 and 3, every user is stored under the key equal to its identity, and
`GetAllUsers`, whatever order the map iteration takes, returns the three
seeded users, each once. -/
theorem users_read_only (now : Time) (ops : List AnyOp) :
    (∀ (r : TodoRepository) (op : AnyOp), (applyAnyOp r op).users = r.users) ∧
    (runAnyOps (NewTodoRepository now) ops).users = SeedUsers now ∧
    userIDs (runAnyOps (NewTodoRepository now) ops) = [1, 2, 3] ∧
    (∀ p ∈ (runAnyOps (NewTodoRepository now) ops).users, p.2.ID = p.1) ∧
    (∀ order, IterationOf (runAnyOps (NewTodoRepository now) ops) order →
      (repository.GetAllUsers (runAnyOps (NewTodoRepository now) ops) order).Perm
        [⟨1, "John Doe", "john@example.com", now⟩, ⟨2, "Jane Smith", "jane@example.com", now⟩,
         ⟨3, "Bob Johnson", "bob@example.com", now⟩] ∧
      (repository.GetAllUsers (runAnyOps (NewTodoRepository now) ops) order).Nodup ∧
      service.GetAllUsers (runAnyOps (NewTodoRepository now) ops) order =
        .ok (repository.GetAllUsers (runAnyOps (NewTodoRepository now) ops) order)) := by
  have hu : (runAnyOps (NewTodoRepository now) ops).users = SeedUsers now :=
    runAnyOps_users ops (NewTodoRepository now)
  refine ⟨applyAnyOp_users, hu, ?_, ?_, ?_⟩
  · simp [userIDs, hu, SeedUsers]
  · intro p hp
    rw [hu] at hp
    simp only [SeedUsers, List.mem_cons, List.mem_singleton, List.not_mem_nil, or_false] at hp
    rcases hp with rfl | rfl | rfl <;> rfl
  · intro order hiter
    unfold IterationOf at hiter
    rw [hu] at hiter
    have hperm : (repository.GetAllUsers (runAnyOps (NewTodoRepository now) ops) order).Perm
        [⟨1, "John Doe", "john@example.com", now⟩, ⟨2, "Jane Smith", "jane@example.com", now⟩,
         ⟨3, "Bob Johnson", "bob@example.com", now⟩] := by
      have := hiter.map Prod.snd
      simpa [repository.GetAllUsers, GetAllUsers_loop, SeedUsers] using this
    refine ⟨hperm, ?_, rfl⟩
    rw [hperm.nodup_iff]
    simp

/-- Witness of C21: after a create and a delete the map iteration visits the
entries in the order 3, 1, 2. -/
theorem users_read_only_witness :
    (repository.GetAllUsers (runAnyOps (NewTodoRepository 0)
        [.service (.createTodo ⟨"buy milk", 1, false⟩ 1), .store (.delete 1)])
      [(3, ⟨3, "Bob Johnson", "bob@example.com", 0⟩), (1, ⟨1, "John Doe", "john@example.com", 0⟩),
       (2, ⟨2, "Jane Smith", "jane@example.com", 0⟩)]).Perm
      [⟨1, "John Doe", "john@example.com", 0⟩, ⟨2, "Jane Smith", "jane@example.com", 0⟩,
       ⟨3, "Bob Johnson", "bob@example.com", 0⟩] :=
  ((users_read_only 0 [.service (.createTodo ⟨"buy milk", 1, false⟩ 1), .store (.delete 1)]).2.2.2.2
    [(3, ⟨3, "Bob Johnson", "bob@example.com", 0⟩), (1, ⟨1, "John Doe", "john@example.com", 0⟩),
     (2, ⟨2, "Jane Smith", "jane@example.com", 0⟩)]
    (by
      show List.Perm _ (runAnyOps (NewTodoRepository 0)
        [.service (.createTodo ⟨"buy milk", 1, false⟩ 1), .store (.delete 1)]).users
      decide)).1

/-! ## Messages for JSON decode errors -/

theorem startsWithChars_append (sub : List Char) : ∀ (s rest : List Char),
    strings.startsWithChars s sub = true → strings.startsWithChars (s ++ rest) sub = true := by
  induction sub with
  | nil => intro s rest _; cases s <;> cases rest <;> rfl
  | cons d sub ih =>
    intro s rest h
    cases s with
    | nil => simp [strings.startsWithChars] at h
    | cons c s =>
      simp only [strings.startsWithChars, Bool.and_eq_true] at h
      simp only [List.cons_append, strings.startsWithChars, Bool.and_eq_true]
      exact ⟨h.1, ih s rest h.2⟩

theorem containsChars_append_left (sub : List Char) : ∀ (s rest : List Char),
    strings.containsChars s sub = true → strings.containsChars (s ++ rest) sub = true := by
  intro s
  induction s with
  | nil =>
    intro rest h
    simp only [strings.containsChars] at h
    have h2 := startsWithChars_append sub [] rest h
    cases rest with
    | nil => simpa [strings.containsChars] using h
    | cons c rest =>
      simp only [List.nil_append] at h2 ⊢
      simp [strings.containsChars, h2]
  | cons c s ih =>
    intro rest h
    simp only [strings.containsChars, Bool.or_eq_true] at h
    simp only [List.cons_append, strings.containsChars, Bool.or_eq_true]
    rcases h with h | h
    · exact Or.inl (startsWithChars_append sub (c :: s) rest h)
    · exact Or.inr (ih rest h)

theorem containsChars_append_right (sub : List Char) : ∀ (before s : List Char),
    strings.containsChars s sub = true → strings.containsChars (before ++ s) sub = true := by
  intro before
  induction before with
  | nil => intro s h; exact h
  | cons c before ih =>
    intro s h
    simp only [List.cons_append, strings.containsChars, Bool.or_eq_true]
    exact Or.inr (ih s h)

theorem Contains_append_left (s rest sub : String) (h : strings.Contains s sub = true) :
    strings.Contains (s ++ rest) sub = true := by
  unfold strings.Contains at h ⊢
  rw [String.data_append]
  exact containsChars_append_left _ _ _ h

theorem Contains_append_right (before s sub : String) (h : strings.Contains s sub = true) :
    strings.Contains (before ++ s) sub = true := by
  unfold strings.Contains at h ⊢
  rw [String.data_append]
  exact containsChars_append_right _ _ _ h

theorem typeMismatch_cannot_unmarshal (kind field typ : String) :
    strings.Contains (helpers.typeMismatch kind field typ) "cannot unmarshal" = true := by
  unfold helpers.typeMismatch
  iterate 5 apply Contains_append_left
  decide

theorem typeMismatch_into (kind field typ : String) :
    strings.Contains (helpers.typeMismatch kind field typ) "int" = true := by
  unfold helpers.typeMismatch
  iterate 3 apply Contains_append_left
  apply Contains_append_right
  decide

theorem typeMismatch_field (kind field typ sub : String)
    (h : strings.Contains field sub = true) :
    strings.Contains (helpers.typeMismatch kind field typ) sub = true := by
  unfold helpers.typeMismatch
  iterate 2 apply Contains_append_left
  apply Contains_append_right
  exact h

theorem typeMismatch_typ (kind field typ sub : String)
    (h : strings.Contains typ sub = true) :
    strings.Contains (helpers.typeMismatch kind field typ) sub = true := by
  unfold helpers.typeMismatch
  apply Contains_append_right
  exact h

/-- C23 at the failing input: for the error of `encoding/json` on a number in
the field `text`, `ParseJSONError` returns "One of the fields must be a
number"; for no kind of JSON value in `text` does it return "Field 'text' must
be a string", because the test for "number" or "int" comes first and matches
the word "into" of every such message.  On `user_id` it names the field for a
string value but answers with the boolean message for a bool value; on
`completed` it returns "Field 'completed' must be a boolean value (true or
false)" for every kind. -/
theorem parse_json_error_text_mismatch :
    helpers.ParseJSONError (some
      "json: cannot unmarshal number into Go struct field CreateTodoRequest.text of type string")
      = "One of the fields must be a number" ∧
    (∀ kind : String, helpers.ParseJSONError (some (helpers.typeMismatch kind "text" "string")) ≠
      "Field \x27text\x27 must be a string") ∧
    helpers.ParseJSONError (some (helpers.typeMismatch "string" "user_id" "int")) =
      "Field \x27user_id\x27 must be a number" ∧
    helpers.ParseJSONError (some (helpers.typeMismatch "bool" "user_id" "int")) =
      "One of the fields must be a boolean value (true or false)" ∧
    (∀ kind : String, helpers.ParseJSONError (some (helpers.typeMismatch kind "completed" "bool")) =
      "Field \x27completed\x27 must be a boolean value (true or false)") := by
  refine ⟨by decide, ?_, by decide, by decide, ?_⟩
  · intro kind
    have h1 := typeMismatch_cannot_unmarshal kind "text" "string"
    have h2 := typeMismatch_into kind "text" "string"
    simp only [helpers.ParseJSONError, h1, h2, if_true, Bool.or_true]
    split_ifs <;> decide
  · intro kind
    have h1 := typeMismatch_cannot_unmarshal kind "completed" "bool"
    have h2 := typeMismatch_typ kind "completed" "bool" "bool" (by decide)
    have h3 := typeMismatch_field kind "completed" "bool" "completed" (by decide)
    simp only [helpers.ParseJSONError, h1, h2, h3, if_true]

/-! ## The counter along a run -/

theorem Update_nextID (r : TodoRepository) (todo : Todo) :
    (Update r todo).1.nextID = r.nextID := by
  unfold Update
  cases indexOfID r.todos todo.ID <;> rfl

theorem Delete_nextID (r : TodoRepository) (id : Int) : (Delete r id).1.nextID = r.nextID := by
  unfold Delete
  cases indexOfID r.todos id <;> rfl

theorem applyServiceOp_nextID_le (r : TodoRepository) (op : ServiceOp) :
    (applyServiceOp r op).nextID ≤ r.nextID + 1 := by
  cases op with
  | getAllTodos => simp [applyServiceOp]
  | getTodosByUser _ => simp [applyServiceOp]
  | getTodoByID _ => simp [applyServiceOp]
  | createTodo req now =>
    simp only [applyServiceOp, CreateTodo]
    cases validateTodoRequest req with
    | some _ => simp
    | none =>
      cases GetUserByID r req.UserID with
      | error _ => simp
      | ok user => simp [Create]
  | deleteTodo id =>
    simp only [applyServiceOp, DeleteTodo]
    split
    · simp
    · cases FindByID r id with
      | error _ => simp
      | ok _ => simp [Delete_nextID]
  | toggleTodo id now =>
    simp only [applyServiceOp, ToggleTodo]
    split
    · simp
    · cases FindByID r id with
      | error _ => simp
      | ok _ => simp [Update_nextID]
  | updateTodo id req now =>
    simp only [applyServiceOp, UpdateTodo]
    split
    · simp
    · cases validateTodoRequest req with
      | some _ => simp
      | none =>
        cases FindByID r id with
        | error _ => simp
        | ok _ => simp [Update_nextID]

theorem applyAnyOp_nextID_le (r : TodoRepository) (op : AnyOp) :
    (applyAnyOp r op).nextID ≤ r.nextID + 1 := by
  cases op with
  | store op =>
    cases op with
    | create todo => simp [applyAnyOp, applyOp, Create]
    | update todo => simp [applyAnyOp, applyOp, Update_nextID]
    | delete id => simp [applyAnyOp, applyOp, Delete_nextID]
  | service op => exact applyServiceOp_nextID_le r op

theorem runAnyOps_nextID_le (ops : List AnyOp) : ∀ r : TodoRepository,
    (runAnyOps r ops).nextID ≤ r.nextID + (ops.length : Int) := by
  induction ops with
  | nil => intro r; simp [runAnyOps]
  | cons op ops ih =>
    intro r
    have h1 := ih (applyAnyOp r op)
    have h2 := applyAnyOp_nextID_le r op
    have h3 : runAnyOps r (op :: ops) = runAnyOps (applyAnyOp r op) ops := rfl
    rw [h3]
    simp only [List.length_cons, Nat.cast_add, Nat.cast_one]
    omega

/-- Along a run from `NewTodoRepository` of fewer than `2^63 - 2` calls the
counter stays a 64-bit `int` below the largest one, so the next create of the
machine is the create of the model. -/
theorem run_counter_in_range (now : Time) (ops : List AnyOp) (todo : Todo)
    (hlen : (ops.length : Int) < 2 ^ 63 - 2) :
    1 ≤ (runAnyOps (NewTodoRepository now) ops).nextID ∧
    (runAnyOps (NewTodoRepository now) ops).nextID + 1 ≤ 2 ^ 63 - 1 ∧
    CreateInt64 (runAnyOps (NewTodoRepository now) ops) todo =
      Create (runAnyOps (NewTodoRepository now) ops) todo := by
  have hinv := IdInv_runAnyOps ops _ (IdInv_new now)
  have hle := runAnyOps_nextID_le ops (NewTodoRepository now)
  have h1 : 1 ≤ (runAnyOps (NewTodoRepository now) ops).nextID := hinv.2.2
  have hn : (NewTodoRepository now).nextID = 1 := rfl
  rw [hn] at hle
  have h2 : (runAnyOps (NewTodoRepository now) ops).nextID + 1 ≤ 2 ^ 63 - 1 := by omega
  exact ⟨h1, h2, CreateInt64_eq_Create _ todo (by omega) h2⟩
